import Mathlib

/-!
# Verification of the growspace-backend notification dispatch pipeline

Shallow embedding of the email notification pipeline implemented in
`src/modules/email/presentation/email-controller.ts`, together with proofs
about the properties claimed by the specification.

Modelling conventions:
* JavaScript strings are `String` / `List Char`; machine timestamps
  (milliseconds since the epoch, as produced by `Date.prototype.getTime`)
  are `Int`.
* `undefined`/`null` record fields are `Option _`; JavaScript truthiness of
  a string value (`s ? a : b`) is "present and nonempty".
* External collaborators (Supabase record store, Resend send capability,
  date formatting helpers) are oracles passed in as functions, with
  `Except`/`Option` results mirroring the `{ data, error }` shapes that the
  code inspects.
-/

namespace Growspace

/-! ## JavaScript value helpers -/

/-- JavaScript `a || b` on optional strings: `a` is kept iff it is present
and nonempty (truthy), otherwise `b` is used. -/
def jsOr (a b : Option String) : Option String :=
  match a with
  | some s => if s = "" then b else some s
  | none => b

/-- JavaScript `v || undefined` on an optional string: collapses empty
strings to `undefined`. -/
def jsOrUndef (v : Option String) : Option String :=
  match v with
  | some s => if s = "" then none else some s
  | none => none

/-- Truthiness of an optional string: present and nonempty. -/
def strTruthy (v : Option String) : Bool :=
  match v with
  | some s => s ≠ ""
  | none => false

/-! ## Template renderer (`renderTemplate`)

The source processes conditionals with the regex
`/\{\{#if\s+([\w\.]+)\}\}([\s\S]*?)\{\{\/if\}\}/` inside a `while` loop
(`String.replace` with a non-global regex rewrites the leftmost match only),
then substitutes each supplied variable with a global literal replacement of
`{{key}}`.  We embed this over `List Char`. -/

/-- `dropLead p s` returns `some r` with `s = p ++ r` when `p` is a prefix
of `s`, and `none` otherwise. -/
def dropLead : List Char → List Char → Option (List Char)
  | [], s => some s
  | _ :: _, [] => none
  | p :: ps, c :: cs => if p = c then dropLead ps cs else none

theorem dropLead_append (p s : List Char) : dropLead p (p ++ s) = some s := by
  induction p with
  | nil => rfl
  | cons c cs ih => simp [dropLead, ih]

theorem dropLead_eq_some (p : List Char) :
    ∀ s r, dropLead p s = some r → s = p ++ r := by
  induction p with
  | nil => intro s r h; simp [dropLead] at h; simp [h]
  | cons c cs ih =>
    intro s r h
    match s with
    | [] => simp [dropLead] at h
    | d :: ds =>
      simp only [dropLead] at h
      split at h
      · next heq => subst heq; simpa using ih ds r h
      · exact absurd h (by simp)

theorem dropLead_length {p s r : List Char} (h : dropLead p s = some r) :
    s.length = p.length + r.length := by
  have := dropLead_eq_some p s r h
  subst this
  simp

/-- Splits a string at the first occurrence of the (nonempty) pattern `pat`,
returning the part before the occurrence and the part after it.  Models a
leftmost regex search for a literal. -/
def splitFirst (pat : List Char) : List Char → Option (List Char × List Char)
  | [] => none
  | c :: cs =>
    match dropLead pat (c :: cs) with
    | some rest => some ([], rest)
    | none =>
      match splitFirst pat cs with
      | some (pre, post) => some (c :: pre, post)
      | none => none

/-- JavaScript `\s` (restricted to the ASCII range, which is the only
whitespace occurring in the templates). -/
def isWsChar (c : Char) : Bool :=
  c = ' ' || c = '\t' || c = '\n' || c = '\r' || c = '\x0b' || c = '\x0c'

/-- JavaScript `[\w\.]`: letters, digits, underscore or dot. -/
def isWordDot (c : Char) : Bool :=
  c.isAlphanum || c = '_' || c = '.'

/-- The literal closing marker `{{/if}}`. -/
def closeTag : List Char := '{' :: '{' :: '/' :: 'i' :: 'f' :: '}' :: '}' :: []

/-- The opening marker `{{#if ` ++ name ++ `}}` (single-space form). -/
def openTag (n : List Char) : List Char :=
  '{' :: '{' :: '#' :: 'i' :: 'f' :: ' ' :: (n ++ ('}' :: '}' :: []))

/-- Tries to match the opening part of the conditional regex,
`\{\{#if\s+([\w\.]+)\}\}`, at the head of `s`; returns the captured
variable name and the remainder.  The character classes `\s` and `[\w.]`
are disjoint from each other and from `}`, so greedy matching without
backtracking is faithful to the regex engine. -/
def matchOpen (s : List Char) : Option (List Char × List Char) :=
  match dropLead ('{' :: '{' :: '#' :: 'i' :: 'f' :: []) s with
  | none => none
  | some r1 =>
    match r1.takeWhile isWsChar, r1.dropWhile isWsChar with
    | [], _ => none
    | _ :: _, r2 =>
      match r2.takeWhile isWordDot, r2.dropWhile isWordDot with
      | [], _ => none
      | w, r3 =>
        match dropLead ('}' :: '}' :: []) r3 with
        | none => none
        | some r4 => some (w, r4)

/-- Finds the leftmost full match of the conditional regex: returns the text
before the match, the captured variable name, the (lazily matched) inner
text, and the text after the closing marker. -/
def findIf : List Char → Option (List Char × List Char × List Char × List Char)
  | [] => none
  | c :: cs =>
    match matchOpen (c :: cs) with
    | some (n, rest) =>
      match splitFirst closeTag rest with
      | some (inner, post) => some ([], n, inner, post)
      | none =>
        match findIf cs with
        | some (pre, n', inner, post) => some (c :: pre, n', inner, post)
        | none => none
    | none =>
      match findIf cs with
      | some (pre, n', inner, post) => some (c :: pre, n', inner, post)
      | none => none

/-- Looks a variable up in the variable map (an association list mirroring a
JavaScript object; a `none` value models an `undefined`/`null` entry). -/
def lookupVar (vars : List (String × Option String)) (k : String) : Option String :=
  match vars.find? (fun p => p.1 = k) with
  | some p => p.2
  | none => none

/-- The `value ? inner : ''` test of the conditional replacement: truthy iff
present and nonempty. -/
def truthy (v : Option String) : Bool := strTruthy v

/-- One `while` loop of `renderTemplate`, fuelled.  Each iteration rewrites
the leftmost conditional; as a replacement is strictly shorter than its
match, `length + 1` fuel always suffices (see `resolveConds`). -/
def resolveCondsFuel (vars : List (String × Option String)) :
    Nat → List Char → List Char
  | 0, s => s
  | fuel + 1, s =>
    match findIf s with
    | none => s
    | some (pre, n, inner, post) =>
      resolveCondsFuel vars fuel
        (pre ++ (if truthy (lookupVar vars (String.mk n)) then inner else []) ++ post)

/-- The conditional-resolution loop of `renderTemplate`: repeatedly rewrites
the leftmost `{{#if name}}...{{/if}}` block until no full block remains. -/
def resolveConds (vars : List (String × Option String)) (s : List Char) : List Char :=
  resolveCondsFuel vars (s.length + 1) s

/-- JavaScript replacement-pattern expansion for a *string* replacement
argument (ECMAScript `GetSubstitution`): `$$` is a literal dollar, `$&`
inserts the matched text, a dollar followed by a backquote (`\x60`) inserts
the part of the subject before the match, a dollar followed by a quote
(`\x27`) inserts the part of the subject after the match.  The dynamically
built regexes carry no (named) capture groups, so `$n` and `$<...>` pass
through literally, as does any other dollar. -/
def expandRepl (matched before after : List Char) : List Char → List Char
  | [] => []
  | c :: rest =>
    if c = '$' then
      match rest with
      | [] => ['$']
      | c2 :: rest2 =>
        if c2 = '$' then '$' :: expandRepl matched before after rest2
        else if c2 = '&' then matched ++ expandRepl matched before after rest2
        else if c2 = '\x60' then before ++ expandRepl matched before after rest2
        else if c2 = '\x27' then after ++ expandRepl matched before after rest2
        else '$' :: expandRepl matched before after (c2 :: rest2)
    else c :: expandRepl matched before after rest

/-- A replacement string free of dollar replacement patterns: no `$`
followed by `$`, `&`, a backquote or a quote.  `expandRepl` inserts such a
string literally (`expandRepl_dollarSafe`). -/
def dollarSafe : List Char → Bool
  | [] => true
  | c :: rest =>
    if c = '$' then
      match rest with
      | [] => true
      | c2 :: rest2 =>
        if c2 = '$' || c2 = '&' || c2 = '\x60' || c2 = '\x27' then false
        else dollarSafe (c2 :: rest2)
    else dollarSafe rest

/-- Fuelled scanner for one global replacement.  `pre` is the part of the
original subject before the scan position (needed by the dollar-backquote
pattern); on a match, the remainder after the match is the subject part the
dollar-quote pattern inserts.  Every recursive call consumes at least one
character of the scanned string when the pattern is nonempty, so fuel equal
to the string's length is always sufficient (`replAll`). -/
def replAllFuel (pat rep : List Char) : Nat → List Char → List Char → List Char
  | 0, _, s => s
  | _ + 1, _, [] => []
  | fuel + 1, pre, c :: cs =>
    match dropLead pat (c :: cs) with
    | some rest =>
      expandRepl pat pre rest rep ++ replAllFuel pat rep fuel (pre ++ pat) rest
    | none => c :: replAllFuel pat rep fuel (pre ++ [c]) cs

/-- Global replacement, as performed by
`output.replace(new RegExp('\\{\\{' + key + '\\}\}', 'g'), String(value))`:
leftmost, non-overlapping, the replacement is not rescanned, and the
replacement string is interpreted per `GetSubstitution` (`expandRepl`).
The patterns used by the renderer are `{{key}}` and hence nonempty. -/
def replAll (pat rep s : List Char) : List Char :=
  replAllFuel pat rep s.length [] s

/-- The placeholder pattern `{{key}}` (the variable keys used by the
pipeline contain no regex metacharacters, so the dynamically built regex is
a literal). -/
def phTag (k : List Char) : List Char :=
  '{' :: '{' :: (k ++ ('}' :: '}' :: []))

/-- The variable-substitution pass of `renderTemplate`: iterates the entries
of the variable map in order, skipping `undefined`/`null` values and
globally replacing `{{key}}` with the value otherwise. -/
def substPass (vars : List (String × Option String)) (s : List Char) : List Char :=
  vars.foldl
    (fun acc p =>
      match p.2 with
      | none => acc
      | some val => replAll (phTag p.1.data) val.data acc)
    s

/-- `renderTemplate(templateString, variables)`: empty-template guard, then
conditional resolution, then variable substitution. -/
def renderTemplate (templateString : String) (vars : List (String × Option String)) :
    String :=
  if templateString = "" then ""
  else String.mk (substPass vars (resolveConds vars templateString.data))

example :
    renderTemplate "Hi \x7b\x7buser_name\x7d\x7d\x7b\x7b#if plant_name\x7d\x7d, plant \x7b\x7bplant_name\x7d\x7d\x7b\x7b/if\x7d\x7d!"
      [("user_name", some "Ana"), ("plant_name", none)] = "Hi Ana!" := by
  decide

example :
    renderTemplate "A\x7b\x7b#if x\x7d\x7d[\x7b\x7bx\x7d\x7d]\x7b\x7b/if\x7d\x7dB\x7b\x7b#if y\x7d\x7d[Y]\x7b\x7b/if\x7d\x7dC"
      [("x", some "1"), ("y", some "2")] = "A[1]B[Y]C" := by
  decide

example :
    renderTemplate "Hello \x7b\x7bmissing\x7d\x7d!" [("user_name", some "Ana")] =
      "Hello \x7b\x7bmissing\x7d\x7d!" := by
  decide

/-! ### Well-formed templates with independent conditional blocks (C4)

A template "with `N` independent (non-nested) `{{#if name}}...{{/if}}`
blocks" is represented structurally: a leading text followed by `N` blocks,
each a `(name, inner text, following text)` triple.  The surrounding texts
and inner texts are required to be brace-free (`noLB`), which is what makes
the blocks independent and unambiguous; the names are nonempty `[\w.]+`
words exactly as the regex demands. -/

/-- `s` contains no `{` character (brace-free text). -/
def noLB (s : List Char) : Bool := s.all (fun c => c ≠ '{')

/-- All characters of `s` match the regex class `[\w.]`. -/
def wordChars (s : List Char) : Bool := s.all isWordDot

/-- Flattens a leading text plus a list of `(name, inner, following text)`
blocks into the literal template string. -/
def flattenT (t0 : List Char) : List (String × List Char × List Char) → List Char
  | [] => t0
  | (n, inner, t) :: bs => t0 ++ (openTag n.data ++ (inner ++ (closeTag ++ flattenT t bs)))

/-- The expected conditional resolution: for each block, keep the inner text
iff the block's variable is truthy, drop the whole block otherwise. -/
def condBlocks (vars : List (String × Option String)) :
    List (String × List Char × List Char) → List Char
  | [] => []
  | (n, inner, t) :: bs =>
    (if truthy (lookupVar vars n) then inner else []) ++ (t ++ condBlocks vars bs)

/-- Well-formedness of a block list: names are nonempty `[\w.]+` words, and
inner and following texts are brace-free. -/
def wfBlocks (bs : List (String × List Char × List Char)) : Bool :=
  bs.all fun b => !b.1.data.isEmpty && (wordChars b.1.data && (noLB b.2.1 && noLB b.2.2))

theorem wfBlocks_cons {b : String × List Char × List Char}
    {bs : List (String × List Char × List Char)} (h : wfBlocks (b :: bs) = true) :
    b.1.data ≠ [] ∧ wordChars b.1.data = true ∧ noLB b.2.1 = true ∧
      noLB b.2.2 = true ∧ wfBlocks bs = true := by
  simp only [wfBlocks, List.all_cons, Bool.and_eq_true] at h
  obtain ⟨⟨h1, h2, h3, h4⟩, h5⟩ := h
  refine ⟨?_, h2, h3, h4, h5⟩
  simpa using h1

theorem isWordDot_not_ws {c : Char} (h : isWordDot c = true) : isWsChar c = false := by
  by_contra hne
  rw [Bool.not_eq_false] at hne
  simp only [isWsChar, Bool.or_eq_true, decide_eq_true_eq] at hne
  rcases hne with ((((h1 | h1) | h1) | h1) | h1) | h1 <;> subst h1 <;>
    exact absurd h (by decide)

theorem isWordDot_ne_lbrace {c : Char} (h : isWordDot c = true) : c ≠ '{' := by
  intro h1; subst h1; exact absurd h (by decide)

theorem isWordDot_ne_rbrace {c : Char} (h : isWordDot c = true) : c ≠ '}' := by
  intro h1; subst h1; exact absurd h (by decide)

theorem takeWhile_append_stop (p : Char → Bool) (l : List Char) (c : Char) (r : List Char)
    (hl : ∀ x ∈ l, p x = true) (hc : p c = false) :
    (l ++ c :: r).takeWhile p = l := by
  induction l with
  | nil => simp [List.takeWhile_cons, hc]
  | cons a l ih =>
    have ha : p a = true := hl a (by simp)
    simp only [List.cons_append, List.takeWhile_cons, ha, if_true]
    rw [ih (fun x hx => hl x (by simp [hx]))]

theorem dropWhile_append_stop (p : Char → Bool) (l : List Char) (c : Char) (r : List Char)
    (hl : ∀ x ∈ l, p x = true) (hc : p c = false) :
    (l ++ c :: r).dropWhile p = c :: r := by
  induction l with
  | nil => simp [List.dropWhile_cons, hc]
  | cons a l ih =>
    have ha : p a = true := hl a (by simp)
    simp only [List.cons_append, List.dropWhile_cons, ha, if_true]
    exact ih (fun x hx => hl x (by simp [hx]))

theorem dropLead_cons_ne {p c : Char} (ps cs : List Char) (h : p ≠ c) :
    dropLead (p :: ps) (c :: cs) = none := by
  simp [dropLead, h]

theorem matchOpen_cons_ne {c : Char} (cs : List Char) (h : c ≠ '{') :
    matchOpen (c :: cs) = none := by
  simp [matchOpen, dropLead, Ne.symm h]

theorem noLB_cons {c : Char} {cs : List Char} (h : noLB (c :: cs) = true) :
    c ≠ '{' ∧ noLB cs = true := by
  have h' := List.all_eq_true.mp h
  constructor
  · simpa using h' c (by simp)
  · exact List.all_eq_true.mpr fun x hx => h' x (by simp [hx])

/-- The opening regex matches the canonical opening tag, capturing exactly
the name. -/
theorem matchOpen_tag (d : List Char) (rest : List Char)
    (h1 : d ≠ []) (h2 : wordChars d = true) :
    matchOpen ('{' :: '{' :: '#' :: 'i' :: 'f' :: ' ' :: (d ++ ('}' :: '}' :: rest))) =
      some (d, rest) := by
  have hword : ∀ x ∈ d, isWordDot x = true := fun x hx => List.all_eq_true.mp h2 x hx
  obtain ⟨c, cs, hcons⟩ := List.exists_cons_of_ne_nil h1
  subst hcons
  have hcw : isWordDot c = true := hword c (by simp)
  unfold matchOpen
  have h0 : dropLead ('{' :: '{' :: '#' :: 'i' :: 'f' :: [])
      ('{' :: '{' :: '#' :: 'i' :: 'f' :: ' ' :: ((c :: cs) ++ ('}' :: '}' :: rest))) =
      some (' ' :: ((c :: cs) ++ ('}' :: '}' :: rest))) := rfl
  rw [h0]
  have htake : (' ' :: ((c :: cs) ++ ('}' :: '}' :: rest))).takeWhile isWsChar = [' '] := by
    simp [List.takeWhile_cons, isWordDot_not_ws hcw]
    decide
  have hdrop : (' ' :: ((c :: cs) ++ ('}' :: '}' :: rest))).dropWhile isWsChar =
      (c :: cs) ++ ('}' :: '}' :: rest) := by
    have hws : isWsChar ' ' = true := by decide
    simp [List.dropWhile_cons, hws, isWordDot_not_ws hcw]
  have htake2 : ((c :: cs) ++ ('}' :: '}' :: rest)).takeWhile isWordDot = c :: cs :=
    takeWhile_append_stop _ _ _ _ hword (by decide)
  have hdrop2 : ((c :: cs) ++ ('}' :: '}' :: rest)).dropWhile isWordDot = '}' :: '}' :: rest :=
    dropWhile_append_stop _ _ _ _ hword (by decide)
  simp only [htake, hdrop, htake2, hdrop2]
  simp [dropLead]

/-- The close-marker search skips brace-free inner text and stops at the
first `{{/if}}`. -/
theorem splitFirst_close (i s : List Char) (hi : noLB i = true) :
    splitFirst closeTag (i ++ (closeTag ++ s)) = some (i, s) := by
  induction i with
  | nil =>
    show splitFirst closeTag ('{' :: '{' :: '/' :: 'i' :: 'f' :: '}' :: '}' :: s) = _
    have hd : dropLead closeTag ('{' :: '{' :: '/' :: 'i' :: 'f' :: '}' :: '}' :: s) = some s :=
      dropLead_append closeTag s
    simp [splitFirst, hd]
  | cons c cs ih =>
    obtain ⟨hc, hcs⟩ := noLB_cons hi
    have hd : dropLead closeTag (c :: (cs ++ (closeTag ++ s))) = none :=
      dropLead_cons_ne _ _ (fun h => hc h.symm)
    show splitFirst closeTag (c :: (cs ++ (closeTag ++ s))) = _
    rw [splitFirst, hd, ih hcs]

/-- The leftmost-match scan skips a brace-free text segment. -/
theorem findIf_skip (t : List Char) (s : List Char) (ht : noLB t = true) :
    findIf (t ++ s) = (findIf s).map (fun q => (t ++ q.1, q.2)) := by
  induction t with
  | nil =>
    simp only [List.nil_append]
    cases h : findIf s with
    | none => simp
    | some q => simp
  | cons c cs ih =>
    obtain ⟨hc, hcs⟩ := noLB_cons ht
    have hmo : matchOpen (c :: (cs ++ s)) = none := matchOpen_cons_ne _ hc
    show findIf (c :: (cs ++ s)) = _
    rw [findIf, hmo, ih hcs]
    cases h : findIf s with
    | none => simp
    | some q => simp

theorem findIf_nil : findIf [] = none := rfl

/-- The scan finds a well-formed block standing at the head of the string. -/
theorem findIf_tag0 (d : List Char) (i s : List Char)
    (h1 : d ≠ []) (h2 : wordChars d = true) (hi : noLB i = true) :
    findIf (openTag d ++ (i ++ (closeTag ++ s))) = some ([], d, i, s) := by
  have hshape : openTag d ++ (i ++ (closeTag ++ s)) =
      '{' :: '{' :: '#' :: 'i' :: 'f' :: ' ' :: (d ++ ('}' :: '}' :: (i ++ (closeTag ++ s)))) := by
    simp [openTag]
  rw [hshape, findIf, matchOpen_tag d (i ++ (closeTag ++ s)) h1 h2]
  simp [splitFirst_close i s hi]

/-- The scan finds the leftmost well-formed block. -/
theorem findIf_tag (t : List Char) (d : List Char) (i s : List Char)
    (ht : noLB t = true) (h1 : d ≠ []) (h2 : wordChars d = true)
    (hi : noLB i = true) :
    findIf (t ++ (openTag d ++ (i ++ (closeTag ++ s)))) = some (t, d, i, s) := by
  rw [findIf_skip t _ ht, findIf_tag0 d i s h1 h2 hi]
  simp

theorem noLB_append {a b : List Char} (ha : noLB a = true) (hb : noLB b = true) :
    noLB (a ++ b) = true := by
  simp only [noLB, List.all_append, Bool.and_eq_true]
  exact ⟨ha, hb⟩

theorem flattenT_append (x y : List Char) (bs : List (String × List Char × List Char)) :
    flattenT (x ++ y) bs = x ++ flattenT y bs := by
  cases bs with
  | nil => rfl
  | cons b bs =>
    obtain ⟨n, i, t⟩ := b
    simp [flattenT]

theorem flattenT_length (t0 : List Char) (bs : List (String × List Char × List Char)) :
    bs.length ≤ (flattenT t0 bs).length := by
  induction bs generalizing t0 with
  | nil => simp [flattenT]
  | cons b bs ih =>
    obtain ⟨n, i, t⟩ := b
    have := ih t
    simp only [flattenT, openTag, closeTag, List.length_append, List.length_cons,
      List.length_nil] at *
    omega

theorem noLB_ite (c : Prop) [Decidable c] {i : List Char} (hi : noLB i = true) :
    noLB (if c then i else []) = true := by
  split
  · exact hi
  · rfl

theorem noLB_condBlocks (vars : List (String × Option String))
    (bs : List (String × List Char × List Char)) (h : wfBlocks bs = true) :
    noLB (condBlocks vars bs) = true := by
  induction bs with
  | nil => rfl
  | cons b bs ih =>
    obtain ⟨n, i, t⟩ := b
    obtain ⟨_, _, hi, ht, htl⟩ := wfBlocks_cons h
    exact noLB_append (noLB_ite _ hi) (noLB_append ht (ih htl))

theorem resolveCondsFuel_step (vars : List (String × Option String)) (f : Nat)
    (s pre d inner post : List Char) (h : findIf s = some (pre, d, inner, post)) :
    resolveCondsFuel vars (f + 1) s =
      resolveCondsFuel vars f
        (pre ++ (if truthy (lookupVar vars (String.mk d)) then inner else []) ++ post) := by
  rw [resolveCondsFuel, h]

/-- The conditional-resolution loop resolves each independent block of a
well-formed template exactly as the spec describes: inner text kept iff the
variable is truthy, whole block dropped otherwise. -/
theorem resolveCondsFuel_flatten (vars : List (String × Option String))
    (bs : List (String × List Char × List Char)) :
    ∀ t0 fuel, noLB t0 = true → wfBlocks bs = true → bs.length < fuel →
    resolveCondsFuel vars fuel (flattenT t0 bs) = t0 ++ condBlocks vars bs := by
  induction bs with
  | nil =>
    intro t0 fuel h0 _ hf
    match fuel, hf with
    | f + 1, _ =>
      have hnone : findIf t0 = none := by
        have := findIf_skip t0 [] h0
        simpa using this
      simp [resolveCondsFuel, flattenT, hnone, condBlocks]
  | cons b bs ih =>
    intro t0 fuel h0 hwf hf
    obtain ⟨n, i, t⟩ := b
    obtain ⟨hn1, hn2, hi, ht, hwf'⟩ := wfBlocks_cons hwf
    match fuel, hf with
    | f + 1, hf =>
      have hfind := findIf_tag t0 n.data i (flattenT t bs) h0 hn1 hn2 hi
      show resolveCondsFuel vars (f + 1) (flattenT t0 ((n, i, t) :: bs)) = _
      rw [show flattenT t0 ((n, i, t) :: bs) =
        t0 ++ (openTag n.data ++ (i ++ (closeTag ++ flattenT t bs))) from rfl]
      rw [resolveCondsFuel_step vars f _ _ _ _ _ hfind]
      have hmk : String.mk n.data = n := rfl
      rw [hmk]
      have hrep : noLB (if truthy (lookupVar vars n) then i else []) = true :=
        noLB_ite _ hi
      have hshape : t0 ++ (if truthy (lookupVar vars n) then i else []) ++ flattenT t bs =
          flattenT ((t0 ++ (if truthy (lookupVar vars n) then i else [])) ++ t) bs := by
        rw [flattenT_append]
      rw [hshape, ih _ f (noLB_append (noLB_append h0 hrep) ht) hwf'
        (by simp only [List.length_cons] at hf; omega)]
      simp [condBlocks]

theorem dollarSafe_cons_ne (c : Char) (rest : List Char) (hc : ¬ c = '$') :
    dollarSafe (c :: rest) = dollarSafe rest := by
  cases rest <;> simp [dollarSafe, hc]

theorem expandRepl_cons_ne (matched before after : List Char) (c : Char)
    (rest : List Char) (hc : ¬ c = '$') :
    expandRepl matched before after (c :: rest) =
      c :: expandRepl matched before after rest := by
  cases rest <;> simp [expandRepl, hc]

theorem expandRepl_dollarSafe_aux (matched before after : List Char) :
    ∀ n, ∀ rep : List Char, rep.length ≤ n → dollarSafe rep = true →
      expandRepl matched before after rep = rep := by
  intro n
  induction n with
  | zero =>
    intro rep hl _
    match rep with
    | [] => rfl
    | c :: rest => simp at hl
  | succ k ih =>
    intro rep hl h
    match rep with
    | [] => rfl
    | c :: rest =>
      by_cases hc : c = '$'
      · subst hc
        match rest with
        | [] => rfl
        | c2 :: rest2 =>
          have hspec : (c2 = '$' || c2 = '&' || c2 = '\x60' || c2 = '\x27') = false := by
            by_contra hcon
            rw [Bool.not_eq_false] at hcon
            simp [dollarSafe, hcon] at h
          have h2 : dollarSafe (c2 :: rest2) = true := by
            simpa [dollarSafe, hspec] using h
          simp only [Bool.or_eq_false_iff, decide_eq_false_iff_not] at hspec
          obtain ⟨⟨⟨h1, h2'⟩, h3⟩, h4⟩ := hspec
          have hlen2 : (c2 :: rest2).length ≤ k := by
            simp only [List.length_cons] at hl ⊢
            omega
          simp [expandRepl, h1, h2', h3, h4, ih (c2 :: rest2) hlen2 h2]
      · have h2 : dollarSafe rest = true := by
          rwa [dollarSafe_cons_ne c rest hc] at h
        have hlen2 : rest.length ≤ k := by
          simp only [List.length_cons] at hl
          omega
        rw [expandRepl_cons_ne matched before after c rest hc, ih rest hlen2 h2]

/-- A dollar-safe replacement string is inserted literally, whatever the
match and its surrounding subject parts are. -/
theorem expandRepl_dollarSafe (matched before after rep : List Char)
    (h : dollarSafe rep = true) : expandRepl matched before after rep = rep :=
  expandRepl_dollarSafe_aux matched before after rep.length rep le_rfl h

/-- For a dollar-safe replacement the scanner never looks at the subject
prefix, so the `pre` accumulator is irrelevant. -/
theorem replAllFuel_pre (p0 : Char) (ps rep : List Char)
    (hrep : dollarSafe rep = true) :
    ∀ fuel pre s, replAllFuel (p0 :: ps) rep fuel pre s =
      replAllFuel (p0 :: ps) rep fuel [] s := by
  intro fuel
  induction fuel with
  | zero => intro pre s; rfl
  | succ f ih =>
    intro pre s
    cases s with
    | nil => rfl
    | cons c cs =>
      cases h : dropLead (p0 :: ps) (c :: cs) with
      | some rest =>
        simp only [replAllFuel, h]
        rw [expandRepl_dollarSafe _ _ _ _ hrep, expandRepl_dollarSafe _ _ _ _ hrep,
          ih (pre ++ (p0 :: ps)) rest, ih ([] ++ (p0 :: ps)) rest]
      | none =>
        simp only [replAllFuel, h]
        rw [ih (pre ++ [c]) cs, ih ([] ++ [c]) cs]

theorem replAllFuel_noLB (ps rep : List Char) :
    ∀ fuel pre s, noLB s = true → replAllFuel ('{' :: ps) rep fuel pre s = s := by
  intro fuel
  induction fuel with
  | zero => intro pre s _; rfl
  | succ f ih =>
    intro pre s hs
    cases s with
    | nil => rfl
    | cons c cs =>
      obtain ⟨hc, hcs⟩ := noLB_cons hs
      have hd : dropLead ('{' :: ps) (c :: cs) = none :=
        dropLead_cons_ne _ _ (fun h => hc h.symm)
      simp [replAllFuel, hd, ih (pre ++ [c]) cs hcs]

/-- The substitution pass leaves a brace-free string untouched: every
pattern it looks for starts with `{{`. -/
theorem substPass_noLB (vars : List (String × Option String)) :
    ∀ s, noLB s = true → substPass vars s = s := by
  induction vars with
  | nil => intro s _; rfl
  | cons p vs ih =>
    intro s hs
    obtain ⟨k, v⟩ := p
    cases v with
    | none => exact ih s hs
    | some val =>
      have hrepl : replAll (phTag k.data) val.data s = s :=
        replAllFuel_noLB ('{' :: (k.data ++ ('}' :: '}' :: []))) val.data s.length [] s hs
      show substPass vs (replAll (phTag k.data) val.data s) = s
      rw [hrepl]
      exact ih s hs

/-- C4: for every template consisting of brace-free text interleaved with
`N` independent (non-nested) `{{#if name}}...{{/if}}` blocks, and every
variable map, `renderTemplate` resolves every block: the inner text of a
block is kept iff the block's variable is present and nonempty (truthy),
otherwise the whole block including its markers is removed; the repeated
scan resolves all `N` blocks regardless of `N`. -/
theorem C4_renderTemplate_independent_if_blocks (t0 : List Char)
    (bs : List (String × List Char × List Char))
    (vars : List (String × Option String))
    (h0 : noLB t0 = true) (hbs : wfBlocks bs = true) :
    renderTemplate (String.mk (flattenT t0 bs)) vars =
      String.mk (t0 ++ condBlocks vars bs) := by
  unfold renderTemplate
  by_cases hemp : String.mk (flattenT t0 bs) = ""
  · have hflat : flattenT t0 bs = [] := by
      have hdata : (String.mk (flattenT t0 bs)).data = ("" : String).data := by rw [hemp]
      simpa using hdata
    cases bs with
    | nil =>
      simp only [flattenT] at hflat
      subst hflat
      rw [if_pos hemp]
      rfl
    | cons b bs =>
      obtain ⟨n, i, t⟩ := b
      exfalso
      simp [flattenT, openTag] at hflat
  · rw [if_neg hemp]
    have hlen : bs.length < (flattenT t0 bs).length + 1 :=
      Nat.lt_succ_of_le (flattenT_length t0 bs)
    have hres : resolveConds vars (String.mk (flattenT t0 bs)).data =
        t0 ++ condBlocks vars bs :=
      resolveCondsFuel_flatten vars bs t0 _ h0 hbs hlen
    rw [hres, substPass_noLB vars _ (noLB_append h0 (noLB_condBlocks vars bs hbs))]

/-- Witness for C4: a two-block template, one truthy variable and one
absent/undefined variable. -/
theorem C4_witness :
    renderTemplate (String.mk (flattenT "A".data
      [("x", "[X]".data, "B".data), ("y", "[Y]".data, "C".data)]))
      [("x", some "1"), ("y", none)] = "A[X]BC" := by
  rw [C4_renderTemplate_independent_if_blocks _ _ _ (by decide) (by decide)]
  decide

/-! ### Well-formed templates with placeholders (C5)

A template with `M` `{{name}}` placeholders is a leading text followed by
`M` `(name, following text)` items; surrounding texts are brace-free and
names are `[\w.]` words, which keeps the placeholders unambiguous. -/

/-- Flattens a leading text plus `(key, following text)` placeholder items
into the literal template string `u0 {{k1}} u1 ... {{kM}} uM`. -/
def phFlatten (u0 : List Char) : List (String × List Char) → List Char
  | [] => u0
  | (k, u) :: ps => u0 ++ (phTag k.data ++ phFlatten u ps)

/-- Expected substitution of the placeholder items: a supplied (non-null)
variable is replaced by its string value, an unset or null variable's
placeholder is left untouched. -/
def phRBlocks (vars : List (String × Option String)) :
    List (String × List Char) → List Char
  | [] => []
  | (k, u) :: ps =>
    (match lookupVar vars k with
      | some v => v.data
      | none => phTag k.data) ++ (u ++ phRBlocks vars ps)

/-- Well-formedness of placeholder items: names are `[\w.]` words and the
surrounding texts are brace-free. -/
def wfPh (pls : List (String × List Char)) : Bool :=
  pls.all fun q => wordChars q.1.data && noLB q.2

/-- Well-formedness of a variable map: keys are `[\w.]` words (so the
dynamically built regexes are literals) and supplied values are brace-free
(so a substituted value cannot create a new placeholder) and free of dollar
replacement patterns (so the replacement string is inserted literally,
matching the claim's `String(value)`). -/
def wfVars (vars : List (String × Option String)) : Bool :=
  vars.all fun p =>
    wordChars p.1.data &&
      (match p.2 with
        | some v => noLB v.data && dollarSafe v.data
        | none => true)

theorem wfPh_cons {q : String × List Char} {ps : List (String × List Char)}
    (h : wfPh (q :: ps) = true) :
    wordChars q.1.data = true ∧ noLB q.2 = true ∧ wfPh ps = true := by
  simp only [wfPh, List.all_cons, Bool.and_eq_true] at h
  exact ⟨h.1.1, h.1.2, h.2⟩

theorem wordChars_tag_noLB (k : List Char) (h : wordChars k = true) :
    noLB (k ++ ('}' :: '}' :: [])) = true := by
  apply List.all_eq_true.mpr
  intro x hx
  rcases List.mem_append.mp hx with hx | hx
  · simpa using isWordDot_ne_lbrace (List.all_eq_true.mp h x hx)
  · simp only [List.mem_cons, List.not_mem_nil, or_false] at hx
    rcases hx with h1 | h1 <;> (subst h1; decide)

/-- Single replacement step of the global-replace scanner when the pattern
does not match at the head. -/
theorem replAll_cons_ne (p0 : Char) (ps rep : List Char) (c : Char) (cs : List Char)
    (hrep : dollarSafe rep = true)
    (h : dropLead (p0 :: ps) (c :: cs) = none) :
    replAll (p0 :: ps) rep (c :: cs) = c :: replAll (p0 :: ps) rep cs := by
  show replAllFuel (p0 :: ps) rep ((c :: cs).length) [] (c :: cs) = _
  simp only [List.length_cons, replAllFuel, h]
  rw [replAllFuel_pre p0 ps rep hrep cs.length _ cs]
  rfl

/-- Fuel above the string's length is irrelevant for a nonempty pattern. -/
theorem replAllFuel_stable (p0 : Char) (ps rep : List Char) :
    ∀ fuel, ∀ pre s : List Char, s.length ≤ fuel →
      replAllFuel (p0 :: ps) rep fuel pre s =
        replAllFuel (p0 :: ps) rep s.length pre s := by
  intro fuel
  induction fuel using Nat.strong_induction_on with
  | _ fuel ih =>
    match fuel with
    | 0 =>
      intro pre s hs
      cases s with
      | nil => rfl
      | cons c cs => simp at hs
    | f + 1 =>
      intro pre s hs
      cases s with
      | nil => rfl
      | cons c cs =>
        have hcs : cs.length ≤ f := by
          simp only [List.length_cons] at hs
          omega
        show replAllFuel _ rep (f + 1) pre (c :: cs) =
          replAllFuel _ rep (cs.length + 1) pre (c :: cs)
        cases h : dropLead (p0 :: ps) (c :: cs) with
        | some rest =>
          have hrest : rest.length ≤ cs.length := by
            have := dropLead_length h
            simp only [List.length_cons] at this
            omega
          simp only [replAllFuel, h]
          congr 1
          rw [ih f (by omega) (pre ++ (p0 :: ps)) rest (le_trans hrest hcs),
            ih cs.length (by omega) (pre ++ (p0 :: ps)) rest hrest]
        | none =>
          simp only [replAllFuel, h]
          congr 1
          exact ih f (by omega) (pre ++ [c]) cs hcs

/-- Single replacement step when the pattern matches at the head: the match
is replaced and scanning continues after it (the replacement itself is not
rescanned). -/
theorem replAll_cons_hit (p0 : Char) (ps rep s : List Char)
    (hrep : dollarSafe rep = true) :
    replAll (p0 :: ps) rep ((p0 :: ps) ++ s) = rep ++ replAll (p0 :: ps) rep s := by
  have hd : dropLead (p0 :: ps) (p0 :: (ps ++ s)) = some s := by
    simpa using dropLead_append (p0 :: ps) s
  show replAllFuel (p0 :: ps) rep ((p0 :: (ps ++ s)).length) [] (p0 :: (ps ++ s)) = _
  simp only [List.length_cons, replAllFuel, hd]
  rw [expandRepl_dollarSafe _ _ _ _ hrep]
  congr 1
  rw [replAllFuel_pre p0 ps rep hrep (ps ++ s).length _ s]
  exact replAllFuel_stable p0 ps rep (ps ++ s).length [] s (by simp)

/-- The scanner passes over brace-free text without replacing anything. -/
theorem replAll_append_text (ps rep : List Char) (u s : List Char)
    (hrep : dollarSafe rep = true) (hu : noLB u = true) :
    replAll ('{' :: ps) rep (u ++ s) = u ++ replAll ('{' :: ps) rep s := by
  induction u with
  | nil => simp
  | cons c cs ih =>
    obtain ⟨hc, hcs⟩ := noLB_cons hu
    have hd : dropLead ('{' :: ps) (c :: (cs ++ s)) = none :=
      dropLead_cons_ne _ _ (fun h => hc h.symm)
    show replAll ('{' :: ps) rep (c :: (cs ++ s)) = _
    rw [replAll_cons_ne _ _ _ _ _ hrep hd, ih hcs]
    rfl

/-- Distinct `[\w.]` keys produce non-overlapping `key}}` suffixes. -/
theorem dropLead_keys_ne :
    ∀ k k' : List Char, wordChars k = true → wordChars k' = true → k ≠ k' →
    ∀ rest : List Char,
      dropLead (k ++ ('}' :: '}' :: [])) (k' ++ ('}' :: '}' :: rest)) = none := by
  intro k
  induction k with
  | nil =>
    intro k' _ hk' hne rest
    cases k' with
    | nil => exact absurd rfl hne
    | cons c cs' =>
      have hcw : isWordDot c = true := (List.all_eq_true.mp hk') c (by simp)
      have : ('}' : Char) ≠ c := fun h => isWordDot_ne_rbrace hcw h.symm
      exact dropLead_cons_ne _ _ this
  | cons a k1 ih =>
    intro k' hk hk' hne rest
    have haw : isWordDot a = true := (List.all_eq_true.mp hk) a (by simp)
    cases k' with
    | nil =>
      exact dropLead_cons_ne _ _ (isWordDot_ne_rbrace haw)
    | cons c k1' =>
      by_cases hac : a = c
      · subst hac
        have hk1 : wordChars k1 = true :=
          List.all_eq_true.mpr fun x hx => (List.all_eq_true.mp hk) x (by simp [hx])
        have hk1' : wordChars k1' = true :=
          List.all_eq_true.mpr fun x hx => (List.all_eq_true.mp hk') x (by simp [hx])
        have hne1 : k1 ≠ k1' := fun h => hne (by rw [h])
        show dropLead (a :: (k1 ++ ('}' :: '}' :: []))) (a :: (k1' ++ ('}' :: '}' :: rest))) = none
        rw [dropLead, if_pos rfl]
        exact ih k1' hk1 hk1' hne1 rest
      · exact dropLead_cons_ne _ _ hac

/-- The scanner for key `k` passes over a placeholder of a different key. -/
theorem replAll_foreign_tag (k k' : String) (rep s : List Char)
    (hrep : dollarSafe rep = true)
    (hk : wordChars k.data = true) (hk' : wordChars k'.data = true)
    (hne : k.data ≠ k'.data) :
    replAll (phTag k.data) rep (phTag k'.data ++ s) =
      phTag k'.data ++ replAll (phTag k.data) rep s := by
  have hd1 : dropLead (phTag k.data) ('{' :: '{' :: (k'.data ++ ('}' :: '}' :: s))) = none := by
    show dropLead ('{' :: '{' :: (k.data ++ ('}' :: '}' :: []))) _ = none
    rw [dropLead, if_pos rfl, dropLead, if_pos rfl]
    exact dropLead_keys_ne k.data k'.data hk hk' hne s
  have hd2 : dropLead (phTag k.data) ('{' :: (k'.data ++ ('}' :: '}' :: s))) = none := by
    show dropLead ('{' :: '{' :: (k.data ++ ('}' :: '}' :: []))) _ = none
    rw [dropLead, if_pos rfl]
    cases hk'd : k'.data with
    | nil => exact dropLead_cons_ne _ _ (by decide)
    | cons c cs' =>
      have hcw : isWordDot c = true := by
        have := (List.all_eq_true.mp hk') c (by rw [hk'd]; simp)
        exact this
      exact dropLead_cons_ne _ _ (fun h => isWordDot_ne_lbrace hcw h.symm)
  have hshape : phTag k'.data ++ s = '{' :: '{' :: (k'.data ++ ('}' :: '}' :: s)) := by
    simp [phTag]
  rw [hshape]
  have hpat : phTag k.data = '{' :: ('{' :: (k.data ++ ('}' :: '}' :: []))) := rfl
  rw [hpat]
  rw [replAll_cons_ne _ _ _ _ _ hrep (hpat ▸ hd1)]
  rw [replAll_cons_ne _ _ _ _ _ hrep (hpat ▸ hd2)]
  have htext : noLB (k'.data ++ ('}' :: '}' :: [])) = true := wordChars_tag_noLB _ hk'
  have hsplit : k'.data ++ ('}' :: '}' :: s) = (k'.data ++ ('}' :: '}' :: [])) ++ s := by
    simp
  rw [hsplit, replAll_append_text _ _ _ _ hrep htext]
  simp [phTag]

/-- Effect of one global replacement (key `k` by `rep`) on the placeholder
structure: every `k`-placeholder is replaced by `rep` and merged into the
surrounding text; the other placeholders survive.  Returns the text merged
into the leading text and the remaining items. -/
def substPh (k : String) (rep : List Char) :
    List (String × List Char) → List Char × List (String × List Char)
  | [] => ([], [])
  | (k', u) :: ps =>
    let r := substPh k rep ps
    if k' = k then (rep ++ (u ++ r.1), r.2)
    else ([], (k', u ++ r.1) :: r.2)

theorem phFlatten_append (x y : List Char) (ps : List (String × List Char)) :
    phFlatten (x ++ y) ps = x ++ phFlatten y ps := by
  cases ps with
  | nil => rfl
  | cons q ps =>
    obtain ⟨k, u⟩ := q
    simp [phFlatten]

theorem substPh_wf (k : String) (rep : List Char) (hrep : noLB rep = true) :
    ∀ ps, wfPh ps = true →
      noLB (substPh k rep ps).1 = true ∧ wfPh (substPh k rep ps).2 = true := by
  intro ps
  induction ps with
  | nil => intro _; exact ⟨rfl, rfl⟩
  | cons q ps ih =>
    intro h
    obtain ⟨k', u⟩ := q
    obtain ⟨hk', hu, htl⟩ := wfPh_cons h
    obtain ⟨ih1, ih2⟩ := ih htl
    by_cases hkk : k' = k
    · rw [show substPh k rep ((k', u) :: ps) =
        (rep ++ (u ++ (substPh k rep ps).1), (substPh k rep ps).2) by
          simp [substPh, hkk]]
      exact ⟨noLB_append hrep (noLB_append hu ih1), ih2⟩
    · rw [show substPh k rep ((k', u) :: ps) =
        ([], (k', u ++ (substPh k rep ps).1) :: (substPh k rep ps).2) by
          simp [substPh, hkk]]
      refine ⟨rfl, ?_⟩
      simp only [wfPh, List.all_cons, Bool.and_eq_true]
      exact ⟨⟨hk', noLB_append hu ih1⟩, ih2⟩

/-- One global replacement transforms a well-formed placeholder template
according to `substPh`. -/
theorem replAll_phFlatten (k : String) (rep : List Char)
    (hrep : dollarSafe rep = true) (hk : wordChars k.data = true) :
    ∀ ps u0, noLB u0 = true → wfPh ps = true →
      replAll (phTag k.data) rep (phFlatten u0 ps) =
        phFlatten (u0 ++ (substPh k rep ps).1) (substPh k rep ps).2 := by
  intro ps
  induction ps with
  | nil =>
    intro u0 h0 _
    show replAll ('{' :: ('{' :: (k.data ++ ('}' :: '}' :: [])))) rep u0 = _
    have : replAll ('{' :: ('{' :: (k.data ++ ('}' :: '}' :: [])))) rep u0 = u0 :=
      replAllFuel_noLB _ rep u0.length [] u0 h0
    rw [this]
    show u0 = phFlatten (u0 ++ []) []
    simp [phFlatten]
  | cons q ps ih =>
    intro u0 h0 hwf
    obtain ⟨k', u⟩ := q
    obtain ⟨hk', hu, htl⟩ := wfPh_cons hwf
    show replAll (phTag k.data) rep (u0 ++ (phTag k'.data ++ phFlatten u ps)) = _
    have hpat : phTag k.data = '{' :: ('{' :: (k.data ++ ('}' :: '}' :: []))) := rfl
    rw [hpat, replAll_append_text _ _ _ _ hrep h0, ← hpat]
    by_cases hkk : k' = k
    · subst hkk
      rw [show phTag k'.data ++ phFlatten u ps =
        ('{' :: ('{' :: (k'.data ++ ('}' :: '}' :: [])))) ++ phFlatten u ps from rfl]
      rw [show phTag k'.data = '{' :: ('{' :: (k'.data ++ ('}' :: '}' :: []))) from rfl]
      rw [replAll_cons_hit _ _ _ _ hrep]
      rw [show replAll ('{' :: ('{' :: (k'.data ++ ('}' :: '}' :: [])))) rep (phFlatten u ps) =
        replAll (phTag k'.data) rep (phFlatten u ps) from rfl]
      rw [ih u hu htl]
      show u0 ++ (rep ++ phFlatten (u ++ (substPh k' rep ps).1) (substPh k' rep ps).2) = _
      rw [show substPh k' rep ((k', u) :: ps) =
        (rep ++ (u ++ (substPh k' rep ps).1), (substPh k' rep ps).2) by
          simp [substPh]]
      simp only [phFlatten_append, List.append_assoc]
    · rw [replAll_foreign_tag k k' rep _ hrep hk hk'
        (fun h => hkk (String.ext h.symm)), ih u hu htl]
      rw [show substPh k rep ((k', u) :: ps) =
        ([], (k', u ++ (substPh k rep ps).1) :: (substPh k rep ps).2) by
          simp [substPh, hkk]]
      show u0 ++ (phTag k'.data ++ phFlatten (u ++ (substPh k rep ps).1) (substPh k rep ps).2) = _
      rw [phFlatten_append]
      show _ = phFlatten (u0 ++ []) ((k', u ++ (substPh k rep ps).1) :: (substPh k rep ps).2)
      simp [phFlatten, phFlatten_append]

theorem lookupVar_cons_self (k : String) (v : Option String)
    (vs : List (String × Option String)) :
    lookupVar ((k, v) :: vs) k = v := by
  simp [lookupVar, List.find?_cons]

theorem lookupVar_cons_ne (key k : String) (v : Option String)
    (vs : List (String × Option String)) (h : k ≠ key) :
    lookupVar ((key, v) :: vs) k = lookupVar vs k := by
  simp [lookupVar, List.find?_cons, Ne.symm h]

/-- Replacing key `key` and then rendering the remaining placeholders with
the remaining variables is the same as rendering with `(key, some val)`
in front. -/
theorem substPh_render (key val : String) (vs : List (String × Option String)) :
    ∀ ps : List (String × List Char),
      (substPh key val.data ps).1 ++ phRBlocks vs (substPh key val.data ps).2 =
        phRBlocks ((key, some val) :: vs) ps := by
  intro ps
  induction ps with
  | nil => rfl
  | cons q ps ih =>
    obtain ⟨k, u⟩ := q
    by_cases hkk : k = key
    · subst hkk
      rw [show substPh k val.data ((k, u) :: ps) =
        (val.data ++ (u ++ (substPh k val.data ps).1), (substPh k val.data ps).2) by
          simp [substPh]]
      show val.data ++ (u ++ (substPh k val.data ps).1) ++ _ = _
      rw [show phRBlocks ((k, some val) :: vs) ((k, u) :: ps) =
        (match lookupVar ((k, some val) :: vs) k with
          | some v => v.data
          | none => phTag k.data) ++ (u ++ phRBlocks ((k, some val) :: vs) ps) from rfl]
      rw [lookupVar_cons_self]
      rw [← ih]
      simp
    · rw [show substPh key val.data ((k, u) :: ps) =
        ([], (k, u ++ (substPh key val.data ps).1) :: (substPh key val.data ps).2) by
          simp [substPh, hkk]]
      show ([] : List Char) ++ ((match lookupVar vs k with
          | some v => v.data
          | none => phTag k.data) ++ ((u ++ (substPh key val.data ps).1) ++
            phRBlocks vs (substPh key val.data ps).2)) = _
      rw [show phRBlocks ((key, some val) :: vs) ((k, u) :: ps) =
        (match lookupVar ((key, some val) :: vs) k with
          | some v => v.data
          | none => phTag k.data) ++ (u ++ phRBlocks ((key, some val) :: vs) ps) from rfl]
      rw [lookupVar_cons_ne key k _ vs hkk, ← ih]
      simp

theorem lookupVar_of_not_mem (key : String) (vs : List (String × Option String))
    (h : key ∉ vs.map Prod.fst) : lookupVar vs key = none := by
  have : vs.find? (fun p => p.1 = key) = none := by
    apply List.find?_eq_none.mpr
    intro p hp
    simp only [decide_eq_true_eq]
    intro heq
    exact h (List.mem_map.mpr ⟨p, hp, heq⟩)
  simp [lookupVar, this]

/-- Rendering does not change if the variable maps agree on lookups. -/
theorem phRBlocks_congr (vars1 vars2 : List (String × Option String))
    (h : ∀ k, lookupVar vars1 k = lookupVar vars2 k) :
    ∀ ps, phRBlocks vars1 ps = phRBlocks vars2 ps := by
  intro ps
  induction ps with
  | nil => rfl
  | cons q ps ih =>
    obtain ⟨k, u⟩ := q
    show (match lookupVar vars1 k with
        | some v => v.data
        | none => phTag k.data) ++ (u ++ phRBlocks vars1 ps) = _
    rw [h k, ih]
    rfl

/-- The substitution pass on a well-formed placeholder template substitutes
exactly the supplied (non-null) variables and leaves the rest untouched. -/
theorem substPass_phFlatten (vars : List (String × Option String)) :
    ∀ u0 ps, noLB u0 = true → wfPh ps = true → wfVars vars = true →
      (vars.map Prod.fst).Nodup →
      substPass vars (phFlatten u0 ps) = u0 ++ phRBlocks vars ps := by
  induction vars with
  | nil =>
    intro u0 ps h0 hps _ _
    show phFlatten u0 ps = u0 ++ phRBlocks [] ps
    clear h0 hps
    induction ps generalizing u0 with
    | nil => simp [phFlatten, phRBlocks]
    | cons q ps ih =>
      obtain ⟨k, u⟩ := q
      show u0 ++ (phTag k.data ++ phFlatten u ps) = _
      rw [ih u]
      rfl
  | cons p vs ih =>
    intro u0 ps h0 hps hv hnd
    obtain ⟨key, v⟩ := p
    have hvtail : wfVars vs = true := by
      simp only [wfVars, List.all_cons, Bool.and_eq_true] at hv
      exact hv.2
    have hkey : wordChars key.data = true := by
      simp only [wfVars, List.all_cons, Bool.and_eq_true] at hv
      exact hv.1.1
    have hndtail : (vs.map Prod.fst).Nodup := by
      simp only [List.map_cons, List.nodup_cons] at hnd
      exact hnd.2
    have hnotin : key ∉ vs.map Prod.fst := by
      simp only [List.map_cons, List.nodup_cons] at hnd
      exact hnd.1
    cases v with
    | none =>
      show substPass vs (phFlatten u0 ps) = _
      rw [ih u0 ps h0 hps hvtail hndtail]
      congr 1
      apply phRBlocks_congr
      intro k
      by_cases hkk : k = key
      · subst hkk
        rw [lookupVar_of_not_mem _ _ hnotin, lookupVar_cons_self]
      · rw [lookupVar_cons_ne _ _ _ _ hkk]
    | some val =>
      have hval : noLB val.data = true := by
        simp only [wfVars, List.all_cons, Bool.and_eq_true] at hv
        exact hv.1.2.1
      have hvd : dollarSafe val.data = true := by
        simp only [wfVars, List.all_cons, Bool.and_eq_true] at hv
        exact hv.1.2.2
      show substPass vs (replAll (phTag key.data) val.data (phFlatten u0 ps)) = _
      rw [replAll_phFlatten key val.data hvd hkey ps u0 h0 hps]
      obtain ⟨hwf1, hwf2⟩ := substPh_wf key val.data hval ps hps
      rw [ih _ _ (noLB_append h0 hwf1) hwf2 hvtail hndtail]
      rw [List.append_assoc]
      congr 1
      exact substPh_render key val vs ps

theorem isWordDot_ne_hash {c : Char} (h : isWordDot c = true) : c ≠ '#' := by
  intro h1; subst h1; exact absurd h (by decide)

theorem findIf_cons_none (c : Char) (cs : List Char) (h : matchOpen (c :: cs) = none) :
    findIf (c :: cs) = (findIf cs).map (fun q => (c :: q.1, q.2)) := by
  rw [findIf, h]
  cases hf : findIf cs with
  | none => simp
  | some q => simp

/-- A `{{name}}` placeholder is not an `{{#if ...}}` opener: the conditional
scan passes over it. -/
theorem findIf_phTag (k : String) (rest : List Char) (hk : wordChars k.data = true) :
    findIf (phTag k.data ++ rest) =
      (findIf rest).map (fun q => (phTag k.data ++ q.1, q.2)) := by
  have hu : noLB (k.data ++ ('}' :: '}' :: [])) = true := wordChars_tag_noLB _ hk
  have hmo1 : matchOpen ('{' :: '{' :: (k.data ++ ('}' :: '}' :: rest))) = none := by
    have hd : dropLead ('{' :: '{' :: '#' :: 'i' :: 'f' :: [])
        ('{' :: '{' :: (k.data ++ ('}' :: '}' :: rest))) = none := by
      rw [dropLead, if_pos rfl, dropLead, if_pos rfl]
      cases hkd : k.data with
      | nil => exact dropLead_cons_ne _ _ (by decide)
      | cons c cs' =>
        have hcw : isWordDot c = true := (List.all_eq_true.mp hk) c (by rw [hkd]; simp)
        exact dropLead_cons_ne _ _ (fun h => isWordDot_ne_hash hcw h.symm)
    simp [matchOpen, hd]
  have hmo2 : matchOpen ('{' :: (k.data ++ ('}' :: '}' :: rest))) = none := by
    have hd : dropLead ('{' :: '{' :: '#' :: 'i' :: 'f' :: [])
        ('{' :: (k.data ++ ('}' :: '}' :: rest))) = none := by
      rw [dropLead, if_pos rfl]
      cases hkd : k.data with
      | nil => exact dropLead_cons_ne _ _ (by decide)
      | cons c cs' =>
        have hcw : isWordDot c = true := (List.all_eq_true.mp hk) c (by rw [hkd]; simp)
        exact dropLead_cons_ne _ _ (fun h => isWordDot_ne_lbrace hcw h.symm)
    simp [matchOpen, hd]
  have hshape : phTag k.data ++ rest = '{' :: '{' :: (k.data ++ ('}' :: '}' :: rest)) := by
    simp [phTag]
  rw [hshape, findIf_cons_none _ _ hmo1, findIf_cons_none _ _ hmo2]
  have hshape2 : k.data ++ ('}' :: '}' :: rest) = (k.data ++ ('}' :: '}' :: [])) ++ rest := by
    simp
  rw [hshape2, findIf_skip _ _ hu]
  cases h : findIf rest with
  | none => simp
  | some q => simp [phTag]

/-- A well-formed placeholder template contains no conditional block at all,
so the conditional pass leaves it unchanged. -/
theorem findIf_phFlatten_none (pls : List (String × List Char)) :
    ∀ u0, noLB u0 = true → wfPh pls = true → findIf (phFlatten u0 pls) = none := by
  induction pls with
  | nil =>
    intro u0 h0 _
    have := findIf_skip u0 [] h0
    simpa using this
  | cons q ps ih =>
    intro u0 h0 hwf
    obtain ⟨k, u⟩ := q
    obtain ⟨hk, hu, htl⟩ := wfPh_cons hwf
    show findIf (u0 ++ (phTag k.data ++ phFlatten u ps)) = none
    rw [findIf_skip _ _ h0, findIf_phTag _ _ hk, ih u hu htl]
    rfl

theorem resolveConds_of_findIf_none (vars : List (String × Option String))
    (s : List Char) (h : findIf s = none) : resolveConds vars s = s := by
  simp [resolveConds, resolveCondsFuel, h]

/-- C5 (amended): after conditional resolution, `renderTemplate` replaces
every `{{name}}` placeholder whose variable is supplied (non-undefined,
non-null) with the string form of the value — provided the value contains
no JavaScript dollar replacement pattern (`wfVars` requires values to be
`dollarSafe`; a value such as `$&` is instead interpreted by
`String.replace` as a replacement pattern, see `C5_counterexample`) — and
leaves every placeholder whose variable is unset, undefined or null
untouched in the output. -/
theorem C5_renderTemplate_placeholder_substitution (u0 : List Char)
    (pls : List (String × List Char)) (vars : List (String × Option String))
    (h0 : noLB u0 = true) (hp : wfPh pls = true) (hv : wfVars vars = true)
    (hnd : (vars.map Prod.fst).Nodup) :
    renderTemplate (String.mk (phFlatten u0 pls)) vars =
      String.mk (u0 ++ phRBlocks vars pls) := by
  unfold renderTemplate
  by_cases hemp : String.mk (phFlatten u0 pls) = ""
  · have hflat : phFlatten u0 pls = [] := by
      have hdata : (String.mk (phFlatten u0 pls)).data = ("" : String).data := by rw [hemp]
      simpa using hdata
    cases pls with
    | nil =>
      simp only [phFlatten] at hflat
      subst hflat
      rw [if_pos hemp]
      rfl
    | cons q ps =>
      obtain ⟨k, u⟩ := q
      exfalso
      simp [phFlatten, phTag] at hflat
  · rw [if_neg hemp]
    have hnone : findIf (phFlatten u0 pls) = none := findIf_phFlatten_none pls u0 h0 hp
    have hres : resolveConds vars (String.mk (phFlatten u0 pls)).data = phFlatten u0 pls :=
      resolveConds_of_findIf_none vars _ hnone
    rw [hres, substPass_phFlatten vars u0 pls h0 hp hv hnd]

/-- Witness for C5: one supplied variable is substituted, one placeholder
whose variable is absent stays in the output verbatim, and a `none`-valued
(undefined/null) entry does not blank anything. -/
theorem C5_witness :
    renderTemplate (String.mk (phFlatten "Hello ".data
      [("user_name", " and ".data), ("missing", "!".data)]))
      [("user_name", some "Ana"), ("empty", none)] =
      "Hello Ana and \x7b\x7bmissing\x7d\x7d!" := by
  rw [C5_renderTemplate_placeholder_substitution _ _ _ (by decide) (by decide)
    (by decide) (by decide)]
  decide

/-- Counterexample to C5 as stated: a supplied value of `$&` is not
inserted as the literal string `$&` — `String.replace` interprets it as a
replacement pattern that re-inserts the matched `{{k}}`, so the placeholder
is not replaced with the string form of the value. -/
theorem C5_counterexample :
    renderTemplate "\x7b\x7bk\x7d\x7d" [("k", some "$&")] = "\x7b\x7bk\x7d\x7d" ∧
    ("\x7b\x7bk\x7d\x7d" : String) ≠ "$&" := by
  refine ⟨by decide, by decide⟩

/-! ## Data model

`Notification` mirrors the columns selected by the pipeline's fetch query;
`scheduled_at` timestamps are modelled directly as epoch milliseconds (the
code parses the stored ISO string with `new Date(...).getTime()`), with
`none` for a null/empty value. -/

/-- A JSON id value: the code accepts both numeric and string ids
(`plant_id`, `tenda_id`). -/
inductive IdVal
  | num (n : Int)
  | str (s : String)
deriving DecidableEq

/-- The template-variable object stored on a notification; only these four
fields are ever read. -/
structure TemplateVars where
  user_name : Option String := none
  task_title : Option String := none
  plant_name : Option String := none
  task_category : Option String := none
deriving DecidableEq

/-- The free-form payload; only these four fields are ever read. -/
structure Payload where
  priority : Option String := none
  task_table : Option String := none
  task_id : Option String := none
  plant_id : Option IdVal := none
deriving DecidableEq

structure Notification where
  id : String
  user_id : String := ""
  type : String := ""
  title : String := ""
  message : String := ""
  status : String := "pending"
  created_at : String := ""
  scheduled_at : Option Int := none
  template_key : String
  template_variables : Option TemplateVars := none
  payload : Option Payload := none
  linked_task_id : Option String := none
  linked_task_table : Option String := none
deriving DecidableEq

/-- An email template row (`email_templates`), as used after lookup. -/
structure EmailTemplate where
  subject_template : String
  html_template : String
deriving DecidableEq

/-- The per-notification task context computed by `getTaskContext`. -/
structure TaskContext where
  isCompleted : Bool
  plantName : Option String := none
  taskTitle : Option String := none
  taskDueDate : Option String := none
  taskPriority : Option String := none
  taskCategory : Option String := none
  gardenName : Option String := none
  completedAt : Option String := none
deriving DecidableEq

/-! ## Record-store oracles

Each oracle mirrors exactly the `{ data, error }` shape the code inspects:
`.single()` queries produce an error both on a store failure and when no row
matches (`Except Unit row`); `.maybeSingle()` queries produce
`Except Unit (Option row)`; queries whose error the code discards by
destructuring only `data` collapse to `Option row`. -/

structure TodoRow where
  completed : Option Bool := none
  status : Option String := none
  title : Option String := none
  due_date : Option String := none
  priority : Option String := none
  completed_at : Option String := none
deriving DecidableEq

structure UserTaskRow where
  status : Option String := none
  completed : Option Bool := none
  completed_at : Option String := none
  plant_name : Option String := none
  plant_id : Option IdVal := none
  name : Option String := none
  due_date : Option String := none
  priority : Option String := none
  category : Option String := none
deriving DecidableEq

/-- `user_plants` / `plants` row (`select name, tenda_id`). -/
structure PlantRow where
  name : Option String := none
  tenda_id : Option IdVal := none
deriving DecidableEq

/-- `plantas` row (`select strain, tenda_id`). -/
structure PlantaRow where
  strain : Option String := none
  tenda_id : Option IdVal := none
deriving DecidableEq

/-- `tendas` row (`select *`); the code probes these four name columns. -/
structure TendaRow where
  nome : Option String := none
  name : Option String := none
  title : Option String := none
  label : Option String := none
deriving DecidableEq

structure Db where
  /-- `todos` by id, `.single()`. -/
  todos : String → Except Unit TodoRow
  /-- `user_tasks` by id, `.single()`. -/
  user_tasks : String → Except Unit UserTaskRow
  /-- `task_completions` by task id, ordered ascending by `completed_at`,
  `limit 1`, `.maybeSingle()`; yields the earliest record's `completed_at`
  column.  The code destructures only `data`, so errors collapse to
  `none`. -/
  task_completions : String → Option (Option String)
  /-- `user_plants` by id, `.maybeSingle()`. -/
  user_plants : IdVal → Except Unit (Option PlantRow)
  /-- `plants` by id, `.maybeSingle()`. -/
  plants : IdVal → Except Unit (Option PlantRow)
  /-- `plantas` by id, `.maybeSingle()`. -/
  plantas : IdVal → Except Unit (Option PlantaRow)
  /-- `tendas` by stringified id, `.maybeSingle()`; only `data` is read. -/
  tendas : String → Option TendaRow

/-! ## Task context resolver (`getTaskContext`) -/

/-- The `/^\d+$/` normalisation: a purely numeric string id is converted
with `Number(...)`. -/
def normIdVal (v : IdVal) : IdVal :=
  match v with
  | .num m => .num m
  | .str s =>
    if s.length > 0 && s.data.all Char.isDigit then
      match s.toNat? with
      | some m => .num (m : Int)
      | none => .str s
    else .str s

/-- JavaScript `String(id)`. -/
def idValToString : IdVal → String
  | .num m => toString m
  | .str s => s

/-- Extracts a garden (tenda) name from a `tendas` row:
`tenda?.nome || tenda?.name || tenda?.title || tenda?.label`. -/
def tendaName (db : Db) (tendaId : IdVal) : Option String :=
  match db.tendas (idValToString tendaId) with
  | some tenda => jsOr (jsOr (jsOr tenda.nome tenda.name) tenda.title) tenda.label
  | none => none

/-- Garden lookup guarded by `tendaId !== undefined && tendaId !== null`. -/
def probeTenda (db : Db) (tendaId : Option IdVal) : Option String :=
  match tendaId with
  | some tid => tendaName db tid
  | none => none

/-- Third plant probe: `plantas` (name taken from `strain`). -/
def probePlantas (db : Db) (pid : IdVal) : Option String × Option String :=
  match db.plantas pid with
  | .ok (some planta) =>
    if strTruthy planta.strain then (planta.strain, probeTenda db planta.tenda_id)
    else (none, none)
  | _ => (none, none)

/-- Second plant probe: `plants`. -/
def probePlants2 (db : Db) (pid : IdVal) : Option String × Option String :=
  match db.plants pid with
  | .ok (some plant) =>
    if strTruthy plant.name then (plant.name, probeTenda db plant.tenda_id)
    else probePlantas db pid
  | _ => probePlantas db pid

/-- Plant / garden enrichment probes, in order `user_plants`, `plants`,
`plantas`; each probe is independently tolerant of errors and misses
(`!upErr && userPlant?.name`), falling through to the next candidate. -/
def probePlants (db : Db) (pid : IdVal) : Option String × Option String :=
  match db.user_plants pid with
  | .ok (some up) =>
    if strTruthy up.name then (up.name, probeTenda db up.tenda_id)
    else probePlants2 db pid
  | _ => probePlants2 db pid

/-- `notification.linked_task_table || notification.payload?.task_table`. -/
def resolvedTaskTable (n : Notification) : Option String :=
  jsOr n.linked_task_table (n.payload.bind Payload.task_table)

/-- `notification.linked_task_id || notification.payload?.task_id`. -/
def resolvedTaskId (n : Notification) : Option String :=
  jsOr n.linked_task_id (n.payload.bind Payload.task_id)

/-- The `user_tasks` branch of `getTaskContext`: direct completion via
`status`/`completed`, fallback to the earliest `task_completions` record,
then plant/garden enrichment. -/
def userTaskCtx (db : Db) (n : Notification) (task : UserTaskRow) (tid : String) :
    TaskContext :=
  let direct : Bool :=
    decide (task.status = some "completed") || decide (task.completed = some true)
  let comp : Bool × Option String :=
    if direct then (true, jsOrUndef task.completed_at)
    else
      match db.task_completions tid with
      | some (some ca) => if ca = "" then (false, none) else (true, some ca)
      | _ => (false, none)
  let rawPlantId : Option IdVal :=
    match task.plant_id with
    | some v => some v
    | none => n.payload.bind Payload.plant_id
  let pg : Option String × Option String :=
    if strTruthy task.plant_name then (task.plant_name, none)
    else
      match rawPlantId with
      | none => (task.plant_name, none)
      | some rawPid =>
        let probe := probePlants db (normIdVal rawPid)
        (if probe.1.isSome then probe.1 else task.plant_name, probe.2)
  { isCompleted := comp.1
    plantName := pg.1
    taskTitle := task.name
    taskDueDate := task.due_date
    taskPriority := task.priority
    taskCategory := task.category
    gardenName := pg.2
    completedAt := comp.2 }

/-- The per-table dispatch of `getTaskContext`, after the
`!taskTable || !taskId` guard has the resolved strings in hand. -/
def getTaskContextBody (db : Db) (n : Notification) (tbl tid : String) : TaskContext :=
  if tbl = "" || tid = "" then { isCompleted := false }
  else if tbl = "todos" then
    match db.todos tid with
    | .error _ => { isCompleted := false }
    | .ok row =>
      { isCompleted :=
          decide (row.completed = some true) || decide (row.status = some "completed")
        taskTitle := row.title
        taskDueDate := row.due_date
        taskPriority := row.priority
        completedAt := jsOrUndef row.completed_at }
  else if tbl = "user_tasks" then
    match db.user_tasks tid with
    | .error _ => { isCompleted := false }
    | .ok task => userTaskCtx db n task tid
  else { isCompleted := false }

/-- `getTaskContext(notification)`: resolves the backing table and task id
(with payload fallbacks), then the completion state and enrichment per
table; every unresolvable or failing path yields the fail-open default
`{ isCompleted := false }`. -/
def getTaskContext (db : Db) (n : Notification) : TaskContext :=
  match resolvedTaskTable n with
  | none => { isCompleted := false }
  | some tbl =>
    match resolvedTaskId n with
    | none => { isCompleted := false }
    | some tid => getTaskContextBody db n tbl tid

/-! ## Escalation policy (inline in `processAndSendNotifications`) -/

def fiveDaysMs : Int := 5 * 24 * 60 * 60 * 1000

def dayMs : Int := 1000 * 60 * 60 * 24

/-- `isOld = scheduledAtMs ? (Date.now() - scheduledAtMs) >= fiveDaysMs : false`.
Note the JavaScript truthiness test on the number: a zero timestamp (the
epoch itself) counts as absent. -/
def isOldB (scheduledAtMs : Option Int) (now : Int) : Bool :=
  match scheduledAtMs with
  | some t => if t = 0 then false else decide (now - t ≥ fiveDaysMs)
  | none => false

/-- The effective template key: a `task_reminder` that is at least five days
past its scheduled time and whose task is still open escalates to
`task_overdue`; otherwise the stored key is kept. -/
def effectiveTemplateKey (templateKey : String) (scheduledAtMs : Option Int)
    (now : Int) (isCompleted : Bool) : String :=
  let isReminder : Bool := decide (templateKey = "task_reminder")
  if isReminder && isOldB scheduledAtMs now && !isCompleted then "task_overdue"
  else templateKey

/-- `days_overdue` from the task's due date, when `scheduled_at` is
unavailable (`else if (taskCtx.taskDueDate)`). -/
def daysOverdueFromDue (now : Int) (taskDueDate : Option String)
    (parseDate : String → Int) : Option String :=
  match taskDueDate with
  | some d =>
    if d = "" then none
    else some (toString (max 1 ((now - parseDate d).fdiv dayMs)))
  | none => none

/-- The `days_overdue` variable: computed only for the `task_overdue`
effective template, as `Math.max(1, Math.floor((now - scheduledAt) / day))`,
falling back to the task's due date when `scheduled_at` is unavailable. -/
def daysOverdueStr (effectiveTemplate : String) (scheduledAtMs : Option Int)
    (now : Int) (taskDueDate : Option String) (parseDate : String → Int) :
    Option String :=
  if effectiveTemplate = "task_overdue" then
    match scheduledAtMs with
    | some t =>
      if t = 0 then daysOverdueFromDue now taskDueDate parseDate
      else some (toString (max 1 ((now - t).fdiv dayMs)))
    | none => daysOverdueFromDue now taskDueDate parseDate
  else none

/-! ## Dispatch loop (`processAndSendNotifications`) -/

/-- A status write performed through `updateNotificationStatus`: always sets
`updated_at`; `sent_at` only for a `sent` status with a timestamp;
`error_message` only for a `failed` status with a truthy message. -/
structure UpdateRec where
  id : String
  status : String
  updated_at : Int
  sent_at : Option Int := none
  error_message : Option String := none
deriving DecidableEq

def mkUpdate (now : Int) (id status : String) (sentAt : Option Int)
    (errorMessage : Option String) : UpdateRec :=
  { id := id
    status := status
    updated_at := now
    sent_at := if status = "sent" then sentAt else none
    error_message := if status = "failed" then jsOrUndef errorMessage else none }

/-- The argument to the outbound send capability (`to_` models the `to`
recipient list; `to` is reserved in Lean). -/
structure EmailReq where
  to_ : List String
  subject : String
  html : String
  text : String
deriving DecidableEq

/-- A per-notification result entry pushed into `results`. -/
structure ResultRec where
  notificationId : String
  status : String
  emailId : Option String
  error : Option String
deriving DecidableEq

/-- Outcome of one `emailUseCases.sendEmail` call: success with an optional
provider id, a failure result, or a thrown exception. -/
inductive SendOutcome
  | ok (emailId : Option String)
  | fail (err : Option String)
  | thrown (msg : String)

/-- The external collaborators of the dispatch loop.  `now` stands for the
single instant at which the batch runs (`Date.now()` / `nowUTC()`);
`fmtDate` / `fmtMs` are `formatBrazilianDate` on a stored date string resp.
on the (millisecond-modelled) `scheduled_at`; `parseDate` is
`new Date(string).getTime()`. -/
structure LoopEnv where
  db : Db
  templates : String → Option EmailTemplate
  send : Nat → EmailReq → SendOutcome
  now : Int
  nodeEnv : String
  fmtDate : String → String
  fmtMs : Int → String
  parseDate : String → Int

/-- `due_date` variable: formatted task due date, else formatted
`scheduled_at`, else the literal `Hoje`. -/
def dueDateVar (env : LoopEnv) (n : Notification) (ctx : TaskContext) : String :=
  match ctx.taskDueDate with
  | some d =>
    if d = "" then
      match n.scheduled_at with
      | some t => env.fmtMs t
      | none => "Hoje"
    else env.fmtDate d
  | none =>
    match n.scheduled_at with
    | some t => env.fmtMs t
    | none => "Hoje"

/-- The variable map built for rendering, in the source's insertion order. -/
def buildVariables (env : LoopEnv) (n : Notification) (ctx : TaskContext)
    (daysOverdue : Option String) : List (String × Option String) :=
  [("user_name", jsOr (n.template_variables.bind TemplateVars.user_name) (some "Usuário")),
   ("task_title", jsOr (jsOr ctx.taskTitle (n.template_variables.bind TemplateVars.task_title))
      (some n.title)),
   ("task_description", jsOrUndef (some n.message)),
   ("task_priority", jsOr (jsOr ctx.taskPriority (n.payload.bind Payload.priority))
      (some "médio")),
   ("due_date", some (dueDateVar env n ctx)),
   ("plant_name", jsOr ctx.plantName (n.template_variables.bind TemplateVars.plant_name)),
   ("task_category", jsOr ctx.taskCategory (n.template_variables.bind TemplateVars.task_category)),
   ("garden_name", ctx.gardenName),
   ("days_overdue", daysOverdue),
   ("app_url", some "https://growspace.app")]

/-- Trace of processing a single notification: the status writes performed,
the send requests issued, the result entry pushed (if any), and whether the
iteration threw (aborting the whole batch via the outer catch). -/
structure ItemOut where
  updates : List UpdateRec
  sends : List EmailReq
  result : Option ResultRec
  aborted : Bool
deriving DecidableEq

/-- The body of the per-notification loop of `processAndSendNotifications`,
in source order: template lookup (miss → per-item failure), task context,
escalation decision, completed-task skip, variable building, effective
template load (`tpl!` — a missing escalated template throws), render, send,
status write. -/
def processOne (env : LoopEnv) (i : Nat) (n : Notification) : ItemOut :=
  let userEmail := if env.nodeEnv = "development" then "pauloericrn@gmail.com"
    else "pauloericrn@gmail.com"
  match env.templates n.template_key with
  | none =>
    { updates := [mkUpdate env.now n.id "failed" none (some "Template não encontrado")]
      sends := []
      result := some ⟨n.id, "failed", none, some "Template não encontrado"⟩
      aborted := false }
  | some template =>
    let taskCtx := getTaskContext env.db n
    let effectiveTemplate :=
      effectiveTemplateKey n.template_key n.scheduled_at env.now taskCtx.isCompleted
    if taskCtx.isCompleted then
      { updates := [mkUpdate env.now n.id "failed" none (some "Task already completed")]
        sends := []
        result := some ⟨n.id, "skipped_completed", none, some "Task already completed"⟩
        aborted := false }
    else
      let daysOverdue :=
        daysOverdueStr effectiveTemplate n.scheduled_at env.now taskCtx.taskDueDate
          env.parseDate
      let vars := buildVariables env n taskCtx daysOverdue
      match (if effectiveTemplate = n.template_key then some template
        else env.templates effectiveTemplate) with
      | none => { updates := [], sends := [], result := none, aborted := true }
      | some tpl =>
        let req : EmailReq :=
          ⟨[userEmail], renderTemplate tpl.subject_template vars,
            renderTemplate tpl.html_template vars, n.title ++ "\n" ++ n.message⟩
        match env.send i req with
        | .ok emailId =>
          { updates := [mkUpdate env.now n.id "sent" (some env.now) none]
            sends := [req]
            result := some ⟨n.id, "sent", jsOr emailId (some "N/A"), none⟩
            aborted := false }
        | .fail err =>
          { updates := [mkUpdate env.now n.id "failed" none err]
            sends := [req]
            result := some ⟨n.id, "failed", none, err⟩
            aborted := false }
        | .thrown msg =>
          { updates := [mkUpdate env.now n.id "failed" none (some msg)]
            sends := [req]
            result := some ⟨n.id, "failed", none, some msg⟩
            aborted := false }

def resSent (o : ItemOut) : Nat :=
  match o.result with
  | some r => if r.status = "sent" then 1 else 0
  | none => 0

/-- Both the `failed` and the `skipped_completed` outcomes increment the
failed tally in the source. -/
def resFailed (o : ItemOut) : Nat :=
  match o.result with
  | some r => if r.status = "sent" then 0 else 1
  | none => 0

/-- Accumulated trace of a batch run. -/
structure RunOut where
  updates : List UpdateRec
  sends : List EmailReq
  results : List ResultRec
  sentCount : Nat
  failedCount : Nat
  aborted : Bool
deriving DecidableEq

/-- The batch loop: processes notifications in order; an aborting iteration
(thrown exception) stops the loop, discarding the remaining items. -/
def runItems (env : LoopEnv) : Nat → List Notification → RunOut
  | _, [] => ⟨[], [], [], 0, 0, false⟩
  | i, n :: ns =>
    let o := processOne env i n
    if o.aborted then
      ⟨o.updates, o.sends, o.result.toList, resSent o, resFailed o, true⟩
    else
      let rest := runItems env (i + 1) ns
      ⟨o.updates ++ rest.updates, o.sends ++ rest.sends, o.result.toList ++ rest.results,
        resSent o + rest.sentCount, resFailed o + rest.failedCount, rest.aborted⟩

/-- Ascending order on `scheduled_at` (the store's `order(..., ascending)`,
nulls last). -/
def schedLe (a b : Notification) : Bool :=
  match a.scheduled_at, b.scheduled_at with
  | some x, some y => decide (x ≤ y)
  | some _, none => true
  | none, some _ => false
  | none, none => true

/-- Stable insertion into a `schedLe`-sorted list. -/
def insertSched (x : Notification) : List Notification → List Notification
  | [] => [x]
  | y :: ys => if schedLe x y then x :: y :: ys else y :: insertSched x ys

/-- Stable sort by ascending `scheduled_at` (the store's `order(...)`). -/
def sortBySched : List Notification → List Notification
  | [] => []
  | x :: xs => insertSched x (sortBySched xs)

theorem mem_insertSched (a x : Notification) (l : List Notification) :
    a ∈ insertSched x l ↔ a = x ∨ a ∈ l := by
  induction l with
  | nil => simp [insertSched]
  | cons y ys ih =>
    unfold insertSched
    split
    · simp
    · simp only [List.mem_cons, ih]
      tauto

theorem mem_sortBySched (a : Notification) (l : List Notification) :
    a ∈ sortBySched l ↔ a ∈ l := by
  induction l with
  | nil => simp [sortBySched]
  | cons x xs ih =>
    simp [sortBySched, mem_insertSched, ih]

/-- The fetch query: `status = 'pending'`, `scheduled_at <= now`, ordered
ascending by `scheduled_at`, limited to 50 rows (a null `scheduled_at` never
satisfies the `lte` filter). -/
def fetchPending (store : List Notification) (now : Int) : List Notification :=
  ((sortBySched (store.filter fun n =>
      decide (n.status = "pending") &&
        (match n.scheduled_at with
          | some t => decide (t ≤ now)
          | none => false))).take 50)

/-- The summary returned on normal completion. -/
structure Summary where
  processed : Nat
  sent : Nat
  failed : Nat
  successRate : ℚ
  details : List ResultRec
deriving DecidableEq

/-- The HTTP-level outcome: a 200 with a summary, a 500 on fetch failure, or
a 500 from the outer catch (a thrown iteration). -/
inductive RunResponse
  | ok (s : Summary)
  | errFetch
  | errInternal
deriving DecidableEq

structure PipelineOut where
  response : RunResponse
  updates : List UpdateRec
  sends : List EmailReq
deriving DecidableEq

/-- `processAndSendNotifications`: fetch (a store failure is fatal with
nothing touched), empty-batch short-circuit with a 100% summary, then the
sequential loop; `successRate = processed > 0 ? sent/processed*100 : 100`.
`processingTime` (wall-clock) is not modelled. -/
def processAndSendNotifications (env : LoopEnv) (fetchErr : Bool)
    (store : List Notification) : PipelineOut :=
  if fetchErr then ⟨.errFetch, [], []⟩
  else
    let batch := fetchPending store env.now
    if batch.isEmpty then ⟨.ok ⟨0, 0, 0, 100, []⟩, [], []⟩
    else
      let r := runItems env 0 batch
      if r.aborted then ⟨.errInternal, r.updates, r.sends⟩
      else
        ⟨.ok ⟨batch.length, r.sentCount, r.failedCount,
          (if batch.length > 0 then ((r.sentCount : ℚ) / (batch.length : ℚ)) * 100 else 100),
          r.results⟩, r.updates, r.sends⟩

/-! ## Claim C3: escalation policy -/

/-- C3 (amended): a `task_reminder` whose (nonzero) `scheduled_at` lies at
least five days in the past and whose task is open escalates to
`task_overdue`, with `days_overdue = max(1, floor((now - scheduled_at) in
whole days))`; in every other case the effective key equals the stored key,
and `days_overdue` is unset whenever the effective key is not
`task_overdue` — but when the stored key is already `task_overdue` (an
"other case", since no escalation happens), `days_overdue` is still
computed by the same formula, which is the correction to the claim. -/
theorem C3_escalation_policy (tk : String) (now t : Int) (due : Option String)
    (parse : String → Int) :
    (tk = "task_reminder" → t ≠ 0 → now - t ≥ fiveDaysMs →
      effectiveTemplateKey tk (some t) now false = "task_overdue") ∧
    (t ≠ 0 →
      daysOverdueStr "task_overdue" (some t) now due parse =
        some (toString (max 1 ((now - t).fdiv dayMs)))) ∧
    (tk ≠ "task_reminder" → ∀ sched c, effectiveTemplateKey tk sched now c = tk) ∧
    (∀ sched, isOldB sched now = false → ∀ c, effectiveTemplateKey tk sched now c = tk) ∧
    (∀ sched, effectiveTemplateKey tk sched now true = tk) ∧
    (∀ eff, eff ≠ "task_overdue" → ∀ sched, daysOverdueStr eff sched now due parse = none) := by
  refine ⟨?_, ?_, ?_, ?_, ?_, ?_⟩
  · intro htk ht hold
    subst htk
    simp [effectiveTemplateKey, isOldB, ht, hold]
  · intro ht
    simp [daysOverdueStr, ht]
  · intro htk sched c
    simp [effectiveTemplateKey, htk]
  · intro sched hold c
    simp [effectiveTemplateKey, hold]
  · intro sched
    simp [effectiveTemplateKey]
  · intro eff heff sched
    simp [daysOverdueStr, heff]

/-- Counterexample to C3 as stated: for a notification whose stored
template_key is already `task_overdue` (an "every other case" instance —
no escalation happens and the effective key equals the original), the code
still computes `days_overdue` instead of leaving it unset. -/
theorem C3_counterexample :
    effectiveTemplateKey "task_overdue" (some dayMs) (2 * dayMs) false = "task_overdue" ∧
    daysOverdueStr "task_overdue" (some dayMs) (2 * dayMs) none (fun _ => 0) = some "1" ∧
    some "1" ≠ (none : Option String) := by
  refine ⟨by decide, by decide, by decide⟩

/-- Witness for C3: at exactly five days elapsed the reminder escalates
(`days_overdue = "5"`), at four days and 23 hours it does not. -/
theorem C3_witness :
    effectiveTemplateKey "task_reminder" (some (5 * dayMs)) (10 * dayMs) false =
      "task_overdue" ∧
    daysOverdueStr "task_overdue" (some (5 * dayMs)) (10 * dayMs) none (fun _ => 0) =
      some "5" ∧
    effectiveTemplateKey "task_reminder"
      (some (10 * dayMs - (4 * dayMs + 23 * 60 * 60 * 1000))) (10 * dayMs) false =
      "task_reminder" := by
  have h5 := C3_escalation_policy "task_reminder" (10 * dayMs) (5 * dayMs) none (fun _ => 0)
  have h4 := C3_escalation_policy "task_reminder" (10 * dayMs)
    (10 * dayMs - (4 * dayMs + 23 * 60 * 60 * 1000)) none (fun _ => 0)
  refine ⟨h5.1 rfl (by decide) (by decide), ?_, ?_⟩
  · have := h5.2.1 (by decide)
    rw [this]
    decide
  · exact h4.2.2.2.1 (some (10 * dayMs - (4 * dayMs + 23 * 60 * 60 * 1000))) (by decide) false

/-! ## Claim C7: fail-open task context resolution -/

/-- C7: `getTaskContext` is fail-open — whenever the backing table or the
task id cannot be resolved (including the payload fallbacks), the table is
not a handled one, or the row query errors, it returns the default context
`isCompleted = false` with every enrichment field empty, and being a total
function it never propagates an error to the caller. -/
theorem C7_getTaskContext_fail_open (db : Db) (n : Notification)
    (h : strTruthy (resolvedTaskTable n) = false ∨ strTruthy (resolvedTaskId n) = false ∨
      (∃ tbl, resolvedTaskTable n = some tbl ∧ tbl ≠ "todos" ∧ tbl ≠ "user_tasks") ∨
      (∃ tid, resolvedTaskTable n = some "todos" ∧ resolvedTaskId n = some tid ∧
        db.todos tid = .error ()) ∨
      (∃ tid, resolvedTaskTable n = some "user_tasks" ∧ resolvedTaskId n = some tid ∧
        db.user_tasks tid = .error ())) :
    getTaskContext db n = { isCompleted := false } := by
  rcases h with h | h | h | h | h
  · unfold getTaskContext
    rcases hT : resolvedTaskTable n with _ | tbl
    · rfl
    rcases hI : resolvedTaskId n with _ | tid
    · rfl
    rw [hT] at h
    have htbl : tbl = "" := by simpa [strTruthy] using h
    unfold getTaskContextBody
    simp [htbl]
  · unfold getTaskContext
    rcases hT : resolvedTaskTable n with _ | tbl
    · rfl
    rcases hI : resolvedTaskId n with _ | tid
    · rfl
    rw [hI] at h
    have htid : tid = "" := by simpa [strTruthy] using h
    unfold getTaskContextBody
    simp [htid]
  · obtain ⟨tbl, htbl, h1, h2⟩ := h
    unfold getTaskContext
    rw [htbl]
    rcases hI : resolvedTaskId n with _ | tid
    · rfl
    unfold getTaskContextBody
    by_cases hemp : tbl = "" ∨ tid = ""
    · rcases hemp with he | he <;> simp [he]
    · push_neg at hemp
      simp [hemp.1, hemp.2, h1, h2]
  · obtain ⟨tid, htbl, htid, herr⟩ := h
    unfold getTaskContext
    rw [htbl, htid]
    unfold getTaskContextBody
    by_cases hemp : tid = ""
    · simp [hemp]
    · simp [hemp, herr]
  · obtain ⟨tid, htbl, htid, herr⟩ := h
    unfold getTaskContext
    rw [htbl, htid]
    unfold getTaskContextBody
    by_cases hemp : tid = ""
    · simp [hemp]
    · simp [hemp, herr]

/-! ## Claim C8: completion resolution by table -/

/-- C8: for a `todos`-backed task the context is completed iff the row's
`completed` flag is true or its `status` equals `completed` (with
`completedAt` taken from the `completed_at` column); for a
`user_tasks`-backed task it is completed iff the row's `status` equals
`completed` or its `completed` flag is true, or, failing that, the
`task_completions` log yields an earliest record with a (truthy)
`completed_at`, which then becomes `completedAt`. -/
theorem C8_completion_resolution (db : Db) (n : Notification) (tid : String) :
    ((resolvedTaskTable n = some "todos" → resolvedTaskId n = some tid → tid ≠ "" →
      ((getTaskContext db n).isCompleted = true ↔
        (∃ row, db.todos tid = .ok row ∧
          (row.completed = some true ∨ row.status = some "completed"))) ∧
      (∀ row, db.todos tid = .ok row →
        (getTaskContext db n).completedAt = jsOrUndef row.completed_at)) ∧
     (resolvedTaskTable n = some "user_tasks" → resolvedTaskId n = some tid → tid ≠ "" →
      ((getTaskContext db n).isCompleted = true ↔
        (∃ task, db.user_tasks tid = .ok task ∧
          (task.status = some "completed" ∨ task.completed = some true ∨
            (∃ ca, db.task_completions tid = some (some ca) ∧ ca ≠ "")))) ∧
      (∀ task, db.user_tasks tid = .ok task →
        task.status ≠ some "completed" → task.completed ≠ some true →
        ∀ ca, db.task_completions tid = some (some ca) → ca ≠ "" →
        (getTaskContext db n).completedAt = some ca))) := by
  constructor
  · intro hT hI hne
    have hctx : getTaskContext db n = getTaskContextBody db n "todos" tid := by
      unfold getTaskContext
      rw [hT, hI]
    rw [hctx]
    unfold getTaskContextBody
    simp only [hne, if_neg, if_pos]
    constructor
    · cases hrow : db.todos tid with
      | error e => simp [hrow, hne]
      | ok row =>
        simp [hrow, hne]
    · intro row hrow
      simp [hrow, hne]
  · intro hT hI hne
    have hctx : getTaskContext db n = getTaskContextBody db n "user_tasks" tid := by
      unfold getTaskContext
      rw [hT, hI]
    rw [hctx]
    unfold getTaskContextBody
    constructor
    · cases htask : db.user_tasks tid with
      | error e => simp [htask, hne]
      | ok task =>
        simp only [hne, htask]
        by_cases hdirect : task.status = some "completed" ∨ task.completed = some true
        · simp [userTaskCtx, hdirect, hne]
          rcases hdirect with h1 | h1 <;> simp [h1]
        · push_neg at hdirect
          cases hcomp : db.task_completions tid with
          | none =>
            simp [userTaskCtx, hdirect.1, hdirect.2, hcomp, hne]
          | some c =>
            cases c with
            | none => simp [userTaskCtx, hdirect.1, hdirect.2, hcomp, hne]
            | some ca =>
              by_cases hca : ca = ""
              · simp [userTaskCtx, hdirect.1, hdirect.2, hcomp, hca, hne]
              · simp [userTaskCtx, hdirect.1, hdirect.2, hcomp, hca, hne]
    · intro task htask hs hc ca hcomp hca
      simp [htask, hne, userTaskCtx, hs, hc, hcomp, hca]

/-! ## Loop trace lemmas -/

/-- Every status write of one iteration targets that notification's id and
writes only `sent` or `failed`. -/
theorem processOne_updates (env : LoopEnv) (i : Nat) (n : Notification) :
    ∀ u ∈ (processOne env i n).updates,
      u.id = n.id ∧ (u.status = "sent" ∨ u.status = "failed") := by
  intro u hu
  unfold processOne at hu
  simp only [ite_self] at hu
  split at hu
  · simp only [List.mem_singleton] at hu
    subst hu
    exact ⟨rfl, Or.inr rfl⟩
  · split at hu
    · simp only [List.mem_singleton] at hu
      subst hu
      exact ⟨rfl, Or.inr rfl⟩
    · split at hu
      · simp at hu
      · split at hu <;>
          (simp only [List.mem_singleton] at hu; subst hu;
            first
            | exact ⟨rfl, Or.inl rfl⟩
            | exact ⟨rfl, Or.inr rfl⟩)

/-- Every send request of one iteration goes to the fixed recipient list;
the development/non-development branches of the recipient selection are
identical, so the environment does not matter. -/
theorem processOne_sends (env : LoopEnv) (i : Nat) (n : Notification) :
    ∀ r ∈ (processOne env i n).sends, r.to_ = ["pauloericrn@gmail.com"] := by
  intro r hr
  unfold processOne at hr
  simp only [ite_self] at hr
  split at hr
  · simp at hr
  · split at hr
    · simp at hr
    · split at hr
      · simp at hr
      · split at hr <;>
          (simp only [List.mem_singleton] at hr; subst hr; simp)

theorem runItems_updates (env : LoopEnv) :
    ∀ ns : List Notification, ∀ i, ∀ u ∈ (runItems env i ns).updates,
      ∃ n ∈ ns, u.id = n.id ∧ (u.status = "sent" ∨ u.status = "failed") := by
  intro ns
  induction ns with
  | nil => intro i u hu; simp [runItems] at hu
  | cons n ns ih =>
    intro i u hu
    unfold runItems at hu
    dsimp only at hu
    split at hu
    · obtain ⟨hid, hst⟩ := processOne_updates env i n u hu
      exact ⟨n, by simp, hid, hst⟩
    · rcases List.mem_append.mp hu with hu | hu
      · obtain ⟨hid, hst⟩ := processOne_updates env i n u hu
        exact ⟨n, by simp, hid, hst⟩
      · obtain ⟨n', hn', hid, hst⟩ := ih (i + 1) u hu
        exact ⟨n', by simp [hn'], hid, hst⟩

theorem runItems_sends (env : LoopEnv) :
    ∀ ns : List Notification, ∀ i, ∀ r ∈ (runItems env i ns).sends,
      r.to_ = ["pauloericrn@gmail.com"] := by
  intro ns
  induction ns with
  | nil => intro i r hr; simp [runItems] at hr
  | cons n ns ih =>
    intro i r hr
    unfold runItems at hr
    dsimp only at hr
    split at hr
    · exact processOne_sends env i n r hr
    · rcases List.mem_append.mp hr with hr | hr
      · exact processOne_sends env i n r hr
      · exact ih (i + 1) r hr

/-! ## Claim C1 (amended): completed tasks are skipped, not sent -/

/-- C1 (amended): for a notification whose template lookup succeeded and
whose resolved `TaskContext` has `isCompleted = true`, no send is attempted,
the per-item result is `skipped_completed` with reason
`Task already completed`, and the notification is marked `failed`.  (The
code looks the template up before the completion check, so a missing
template takes precedence — the correction to the claim.) -/
theorem C1_completed_task_skipped (env : LoopEnv) (i : Nat) (n : Notification)
    (tpl : EmailTemplate) (htpl : env.templates n.template_key = some tpl)
    (hc : (getTaskContext env.db n).isCompleted = true) :
    processOne env i n =
      { updates := [mkUpdate env.now n.id "failed" none (some "Task already completed")]
        sends := []
        result := some ⟨n.id, "skipped_completed", none, some "Task already completed"⟩
        aborted := false } := by
  unfold processOne
  rw [htpl]
  simp [hc]

/-! ## Claim C6: success rate -/

/-- C6: on every normally returned summary, `successRate` is 100 when
`processed = 0` (which happens exactly in the empty-fetch case, with zero
counts), and `sent / processed × 100` otherwise. -/
theorem C6_success_rate (env : LoopEnv) (fe : Bool) (store : List Notification)
    (s : Summary) (h : (processAndSendNotifications env fe store).response = .ok s) :
    (s.processed = 0 → s = ⟨0, 0, 0, 100, []⟩) ∧
    (s.processed ≠ 0 → s.successRate = (s.sent : ℚ) / (s.processed : ℚ) * 100) := by
  unfold processAndSendNotifications at h
  split at h
  · simp at h
  · dsimp only at h
    split at h
    · simp only [RunResponse.ok.injEq] at h
      subst h
      exact ⟨fun _ => rfl, fun hne => absurd rfl hne⟩
    · next hne =>
      split at h
      · simp at h
      · simp only [RunResponse.ok.injEq] at h
        subst h
        have hlen : 0 < (fetchPending store env.now).length := by
          cases hb : fetchPending store env.now with
          | nil => rw [hb] at hne; simp at hne
          | cons a l => simp
        constructor
        · intro h0
          simp only at h0
          omega
        · intro _
          simp only
          rw [if_pos hlen]

/-! ## Claim C9: status transitions -/

/-- C9: the fetch returns only `pending` notifications with
`scheduled_at ≤ now`, and every status write of the pipeline targets the id
of a fetched (hence pending) notification and writes only `sent` or
`failed` — so every transition is `pending → sent` or `pending → failed`,
and a terminal notification is never picked up again. -/
theorem C9_status_transitions (env : LoopEnv) (fe : Bool) (store : List Notification) :
    (∀ n ∈ fetchPending store env.now,
      n.status = "pending" ∧ ∃ t, n.scheduled_at = some t ∧ t ≤ env.now) ∧
    (∀ u ∈ (processAndSendNotifications env fe store).updates,
      (u.status = "sent" ∨ u.status = "failed") ∧
      ∃ n ∈ fetchPending store env.now, u.id = n.id ∧ n.status = "pending") := by
  have hfetch : ∀ n ∈ fetchPending store env.now,
      n.status = "pending" ∧ ∃ t, n.scheduled_at = some t ∧ t ≤ env.now := by
    intro n hn
    unfold fetchPending at hn
    have h1 := List.take_subset 50 _ hn
    have h2 := (mem_sortBySched _ _).mp h1
    have h3 := List.of_mem_filter h2
    simp only [Bool.and_eq_true, decide_eq_true_eq] at h3
    obtain ⟨hs, hsched⟩ := h3
    refine ⟨hs, ?_⟩
    rcases ht : n.scheduled_at with _ | t
    · rw [ht] at hsched
      simp at hsched
    · rw [ht] at hsched
      simp only [decide_eq_true_eq] at hsched
      exact ⟨t, rfl, hsched⟩
  refine ⟨hfetch, ?_⟩
  intro u hu
  unfold processAndSendNotifications at hu
  split at hu
  · simp at hu
  · dsimp only at hu
    split at hu
    · simp at hu
    · split at hu <;>
        · obtain ⟨n, hn, hid, hst⟩ := runItems_updates env _ 0 u hu
          exact ⟨hst, n, hn, hid, (hfetch n hn).1⟩

/-! ## Claim C10: fixed recipient list -/

/-- C10: every outbound send of the dispatch loop goes to the single fixed
recipient `pauloericrn@gmail.com`, for every environment (the development
and non-development branches are identical) and every store — in particular
the notification's user reference never influences the recipient. -/
theorem C10_fixed_recipient (env : LoopEnv) (fe : Bool) (store : List Notification) :
    ∀ req ∈ (processAndSendNotifications env fe store).sends,
      req.to_ = ["pauloericrn@gmail.com"] := by
  intro req hreq
  unfold processAndSendNotifications at hreq
  split at hreq
  · simp at hreq
  · dsimp only at hreq
    split at hreq
    · simp at hreq
    · split at hreq <;> exact runItems_sends env _ 0 req hreq

/-! ## Concrete stores and environments for witnesses and counterexamples -/

/-- A store whose `todos` rows are all completed and whose other tables are
empty/erroring. -/
def db0 : Db :=
  { todos := fun _ => .ok { completed := some true }
    user_tasks := fun _ => .error ()
    task_completions := fun _ => none
    user_plants := fun _ => .error ()
    plants := fun _ => .error ()
    plantas := fun _ => .error ()
    tendas := fun _ => none }

/-- A store where every task lookup errors. -/
def dbNone : Db :=
  { todos := fun _ => .error ()
    user_tasks := fun _ => .error ()
    task_completions := fun _ => none
    user_plants := fun _ => .error ()
    plants := fun _ => .error ()
    plantas := fun _ => .error ()
    tendas := fun _ => none }

def tplW : EmailTemplate := ⟨"S", "H"⟩

/-- Environment with no active template for any key, over `db0`. -/
def env0 : LoopEnv :=
  { db := db0
    templates := fun _ => none
    send := fun _ _ => .ok (some "email-1")
    now := 0
    nodeEnv := "production"
    fmtDate := fun _ => ""
    fmtMs := fun _ => ""
    parseDate := fun _ => 0 }

/-- A reminder notification linked to a completed `todos` task. -/
def n0 : Notification :=
  { id := "n1", template_key := "task_reminder",
    linked_task_table := some "todos", linked_task_id := some "t1" }

/-- Like `env0` but with an active template for every key. -/
def envC1 : LoopEnv := { env0 with templates := fun _ => some tplW }

/-- Counterexample to C1 as stated: the task is completed, but because no
active template exists for the key (and the code checks the template first),
the per-item result is `failed` with the template-not-found reason, not
`skipped_completed` — the "regardless of whether an active template exists"
part of the claim is false. -/
theorem C1_counterexample :
    (getTaskContext env0.db n0).isCompleted = true ∧
    (processOne env0 0 n0).result =
      some ⟨"n1", "failed", none, some "Template não encontrado"⟩ ∧
    "failed" ≠ "skipped_completed" := by
  refine ⟨by decide, by decide, by decide⟩

/-- Witness for C1 (amended): with an active template and a completed task,
the item is skipped with the exact reason and marked failed, no send. -/
theorem C1_witness :
    processOne envC1 0 n0 =
      { updates := [mkUpdate envC1.now "n1" "failed" none (some "Task already completed")]
        sends := []
        result := some ⟨"n1", "skipped_completed", none, some "Task already completed"⟩
        aborted := false } :=
  C1_completed_task_skipped envC1 0 n0 tplW rfl (by decide)

/-- Environment for C2: an active `task_reminder` template but no active
`task_overdue` template; `now` is six days after the epoch. -/
def envC2 : LoopEnv :=
  { db := dbNone
    templates := fun k => if k = "task_reminder" then some tplW else none
    send := fun _ _ => .ok (some "email-1")
    now := 6 * 86400000
    nodeEnv := "production"
    fmtDate := fun _ => ""
    fmtMs := fun _ => ""
    parseDate := fun _ => 0 }

/-- A pending reminder five days past its scheduled time, task unresolved
(open). -/
def nC2 : Notification :=
  { id := "n2", template_key := "task_reminder", scheduled_at := some 86400000 }

/-- C2 (code bug): when the escalation policy selects `task_overdue` but no
active template exists for it, the iteration does not fail per-item — the
`tpl!` non-null assertion dereferences null, the thrown error escapes the
loop to the outer catch, the notification is never marked `failed`, and the
whole batch aborts with a 500 (remaining notifications unprocessed). -/
theorem C2_escalated_template_missing_aborts :
    processOne envC2 0 nC2 =
      { updates := [], sends := [], result := none, aborted := true } ∧
    (processAndSendNotifications envC2 false [nC2]).response = .errInternal ∧
    (processAndSendNotifications envC2 false [nC2]).updates = [] := by
  refine ⟨by decide, by decide, by decide⟩

/-- Environment for C6/C9/C10: four pending notifications, an active
template for every key, the fourth send failing. -/
def envC6 : LoopEnv :=
  { db := dbNone
    templates := fun _ => some tplW
    send := fun i _ => if i = 3 then .fail (some "boom") else .ok (some "email-1")
    now := 100
    nodeEnv := "development"
    fmtDate := fun _ => ""
    fmtMs := fun _ => "date"
    parseDate := fun _ => 0 }

def storeC6 : List Notification :=
  [{ id := "a", template_key := "k", scheduled_at := some 1 },
   { id := "b", template_key := "k", scheduled_at := some 2 },
   { id := "c", template_key := "k", scheduled_at := some 3 },
   { id := "d", template_key := "k", scheduled_at := some 4 }]

def sC6 : Summary :=
  ⟨4, 3, 1, ((3 : ℕ) : ℚ) / ((4 : ℕ) : ℚ) * 100,
   [⟨"a", "sent", some "email-1", none⟩, ⟨"b", "sent", some "email-1", none⟩,
    ⟨"c", "sent", some "email-1", none⟩, ⟨"d", "failed", none, some "boom"⟩]⟩

/-- Witness for C6: processed = 4, sent = 3 gives successRate = 75 =
3/4 × 100; the formula follows from `C6_success_rate` on the actual run. -/
theorem C6_witness :
    (processAndSendNotifications envC6 false storeC6).response = .ok sC6 ∧
    sC6.successRate = (sC6.sent : ℚ) / (sC6.processed : ℚ) * 100 ∧
    sC6.successRate = 75 := by
  have h : (processAndSendNotifications envC6 false storeC6).response = .ok sC6 := rfl
  refine ⟨h, (C6_success_rate envC6 false storeC6 sC6 h).2 (by decide), ?_⟩
  show ((3 : ℕ) : ℚ) / ((4 : ℕ) : ℚ) * 100 = 75
  norm_num

/-- Witness for C7: a notification with no task linkage at all resolves to
the fail-open default context. -/
theorem C7_witness :
    getTaskContext dbNone { id := "w", template_key := "k" } = { isCompleted := false } :=
  C7_getTaskContext_fail_open dbNone _ (Or.inl (by decide))

/-- Store for C8: a `user_tasks` row that is not directly completed, with a
completion logged in `task_completions`. -/
def dbC8 : Db :=
  { dbNone with
    user_tasks := fun _ => .ok { status := some "open" }
    task_completions := fun _ => some (some "2024-01-02T00:00:00Z") }

def nC8 : Notification :=
  { id := "n8", template_key := "k", linked_task_table := some "user_tasks",
    linked_task_id := some "t8" }

/-- Witness for C8: the completions-log fallback marks the task completed
and carries the earliest record's timestamp into `completedAt`. -/
theorem C8_witness :
    (getTaskContext dbC8 nC8).isCompleted = true ∧
    (getTaskContext dbC8 nC8).completedAt = some "2024-01-02T00:00:00Z" := by
  have h := (C8_completion_resolution dbC8 nC8 "t8").2 (by decide) (by decide) (by decide)
  refine ⟨h.1.mpr ⟨{ status := some "open" }, rfl,
      Or.inr (Or.inr ⟨"2024-01-02T00:00:00Z", rfl, by decide⟩)⟩,
    h.2 { status := some "open" } rfl (by decide) (by decide)
      "2024-01-02T00:00:00Z" rfl (by decide)⟩

/-- Witness for C9: a fetched notification is pending, and a concrete
update written by the run has a terminal status. -/
theorem C9_witness :
    ({ id := "a", template_key := "k", scheduled_at := some 1 } : Notification).status =
      "pending" ∧
    ((⟨"a", "sent", 100, some 100, none⟩ : UpdateRec).status = "sent" ∨
      (⟨"a", "sent", 100, some 100, none⟩ : UpdateRec).status = "failed") := by
  have h := C9_status_transitions envC6 false storeC6
  exact ⟨(h.1 _ (by decide)).1,
    (h.2 ⟨"a", "sent", 100, some 100, none⟩ (by decide)).1⟩

/-- Witness for C10: the concrete send request issued by the run goes to
the fixed recipient. -/
theorem C10_witness :
    (⟨["pauloericrn@gmail.com"], "S", "H", "\n"⟩ : EmailReq).to_ =
      ["pauloericrn@gmail.com"] :=
  C10_fixed_recipient envC6 false storeC6 _ (by decide)

end Growspace
